import Mathlib

/-!
Verification of the document chunking and correlation pipeline of the
graphrag-mcp-server repository (`graphrag_mcp_server/document_import/`).

Python strings are modelled as `List Char`; machine integers as `Nat`/`Int`;
fallible code returns `Except`/`Option`; loops whose termination is in
question are given an explicit fuel parameter (`none` = the loop did not
finish within the given fuel, for every fuel = divergence).
-/

set_option maxRecDepth 100000

namespace DI

/-- Python strings are sequences of code points. -/
abbrev Str := List Char

/-- Whitespace as recognised by Python `str.strip`, `str.split` and `\s`
(ASCII whitespace plus the two non-ASCII spaces that occur in this
codebase's inputs). -/
def pyIsSpace (c : Char) : Bool :=
  c = ' ' || c = '\t' || c = '\n' || c = '\r' ||
  c = '\x0b' || c = '\x0c' || c = ' ' || c = '　'

/-- Python `str.lstrip()`. -/
def pyLStrip (s : Str) : Str := s.dropWhile pyIsSpace

/-- Python `str.rstrip()`. -/
def pyRStrip (s : Str) : Str := (s.reverse.dropWhile pyIsSpace).reverse

/-- Python `str.strip()`. -/
def pyStrip (s : Str) : Str := pyLStrip (pyRStrip s)

/-- Auxiliary scanner for `str.split()` with no separator: `cur` is the
current word, reversed. -/
def pySplitWsAux (cur : Str) : Str → List Str
  | [] => if cur = [] then [] else [cur.reverse]
  | c :: cs =>
    if pyIsSpace c then
      if cur = [] then pySplitWsAux [] cs else cur.reverse :: pySplitWsAux [] cs
    else pySplitWsAux (c :: cur) cs

/-- Python `str.split()` with no argument: split on whitespace runs,
dropping empty pieces. -/
def pySplitWs (s : Str) : List Str := pySplitWsAux [] s

/-- Python slice `s[a:b]` for non-negative bounds. -/
def pySlice (s : Str) (a b : Nat) : Str := (s.take b).drop a

/-- Python `haystack.find(needle, start)`: the least index `i ≥ start` at
which `needle` occurs, `none` when there is no occurrence. -/
def pyFind (hay needle : Str) (start : Nat) : Option Nat :=
  (List.range (hay.length + 1)).find?
    (fun i => decide (start ≤ i) && needle.isPrefixOf (hay.drop i))

/-- Python `text.rfind(" ", start, stop)`: the greatest index `i` with
`start ≤ i < min stop len` holding a space, `none` when there is none. -/
def pyRFindSpace (text : Str) (start stop : Nat) : Option Nat :=
  ((List.range (min stop text.length)).filter
    (fun i => decide (start ≤ i) && decide (text.getD i 'x' = ' '))).getLast?

/-- Python ASCII `str.lower()` on one character (the characters the claims
exercise are ASCII). -/
def pyToLower (c : Char) : Char := c.toLower

/-- Supported languages (`models.Language`). -/
inductive Language where
  | japanese | english | chinese | korean | unknown
  deriving DecidableEq, Repr

/-- Element types (`models.ElementType`). -/
inductive ElementType where
  | title | narrativeText | listItem | table | image | header | footer
  | pageBreak | formula | code | uncategorized
  deriving DecidableEq, Repr

/-- Correlation types (`models.CorrelationType`). -/
inductive CorrelationType where
  | adjacent | semantic | reference | hierarchical | cooccurrence
  deriving DecidableEq, Repr

/-- Chunker size configuration, shared by both chunkers
(`BaseChunker.__init__`). -/
structure ChunkerCfg where
  chunk_size : Nat
  chunk_overlap : Nat
  deriving DecidableEq, Repr

/-! ### DefaultChunker (`chunker/default.py`) -/

/-- Sentence-final punctuation of the `(?<=[.!?])\s+` pattern. -/
def isSentEnd (c : Char) : Bool := c = '.' || c = '!' || c = '?'

/-- Scanner for `re.split(r'(?<=[.!?])\s+', text)`.  `acc` holds finished
segments, `cur` the current segment reversed, `prevEnd` whether the
previous character was in `[.!?]`, `inSep` whether we are inside a
whitespace separator run. -/
def reSplitAux (acc : List Str) (cur : Str) (prevEnd inSep : Bool) :
    Str → List Str
  | [] => acc ++ [cur.reverse]
  | c :: cs =>
    if inSep then
      if pyIsSpace c then reSplitAux acc cur prevEnd true cs
      else reSplitAux acc [c] (isSentEnd c) false cs
    else
      if pyIsSpace c && prevEnd then
        reSplitAux (acc ++ [cur.reverse]) [] false true cs
      else reSplitAux acc (c :: cur) (isSentEnd c) false cs

/-- `re.split(r'(?<=[.!?])\s+', text)` (`DefaultChunker.SENTENCE_ENDINGS`). -/
def reSplitSentences (text : Str) : List Str :=
  reSplitAux [] [] false false text

/-- `DefaultChunker._split_sentences`: regex split, then strip and drop
empty pieces. -/
def defaultSplitSentences (text : Str) : List Str :=
  if text = [] then []
  else ((reSplitSentences text).map pyStrip).filter (· ≠ [])

/-- The overlap seed of `DefaultChunker.chunk_text` (lines 122-131): walk
the flushed chunk's sentences from the back, keep sentences while their
combined length stays `≤ chunk_overlap`, stop at the first that does not
fit.  Input is the reversed sentence list; returns the kept sentences in
document order plus their combined length. -/
def overlapAux (maxLen : Nat) (acc : List Str) (accLen : Nat) :
    List Str → List Str × Nat
  | [] => (acc, accLen)
  | s :: rest =>
    if accLen + s.length ≤ maxLen then
      overlapAux maxLen (s :: acc) (accLen + s.length) rest
    else (acc, accLen)

/-- Python `sep.join(parts)`. -/
def joinSep (sep : Str) : List Str → Str
  | [] => []
  | [s] => s
  | s :: s2 :: rest => s ++ sep ++ joinSep sep (s2 :: rest)

/-- Loop state of `DefaultChunker.chunk_text`: finished chunks, the
current sentence buffer (in order) and its combined character count. -/
structure DefState where
  chunks : List Str
  cur : List Str
  curLen : Nat
  deriving Repr

/-- One iteration of the sentence loop of `DefaultChunker.chunk_text`
(lines 111-138). -/
def defStep (cfg : ChunkerCfg) (st : DefState) (s : Str) : DefState :=
  let st1 :=
    if st.curLen + s.length > cfg.chunk_size then
      if st.cur ≠ [] then
        let flushed := st.chunks ++ [joinSep [' '] st.cur]
        if cfg.chunk_overlap > 0 then
          let ov := overlapAux cfg.chunk_overlap [] 0 st.cur.reverse
          { chunks := flushed, cur := ov.1, curLen := ov.2 }
        else { chunks := flushed, cur := [], curLen := 0 }
      else st
    else st
  { st1 with cur := st1.cur ++ [s], curLen := st1.curLen + s.length }

/-- The sentence-path body of `DefaultChunker.chunk_text`
(lines 107-144). -/
def defaultSentenceChunks (cfg : ChunkerCfg) (sentences : List Str) :
    List Str :=
  let st := sentences.foldl (defStep cfg) ⟨[], [], 0⟩
  st.chunks ++ (if st.cur ≠ [] then [joinSep [' '] st.cur] else [])

/-- Fueled loop of `DefaultChunker._chunk_by_size` (lines 157-177).
`none` means the loop did not finish within `fuel` iterations. -/
def defaultChunkBySizeF (cfg : ChunkerCfg) (text : Str) :
    Nat → Nat → Option (List Str)
  | 0, _ => none
  | fuel + 1, start =>
    if start < text.length then
      let e0 := start + cfg.chunk_size
      let e :=
        if e0 < text.length then
          match pyRFindSpace text start e0 with
          | some bp => if bp > start then bp else e0
          | none => e0
        else e0
      let s1 := if e ≤ cfg.chunk_overlap then e else e - cfg.chunk_overlap
      (defaultChunkBySizeF cfg text fuel s1).map
        (fun rest => pyStrip (pySlice text start e) :: rest)
    else some []

/-- `DefaultChunker.chunk_text` (lines 89-144), with fuel for the
fallback loop. -/
def defaultChunkTextF (cfg : ChunkerCfg) (fuel : Nat) (text : Str) :
    Option (List Str) :=
  if text = [] then some []
  else
    let sentences := defaultSplitSentences text
    if sentences = [] then defaultChunkBySizeF cfg text fuel 0
    else some (defaultSentenceChunks cfg sentences)

/-- `DefaultChunker.count_tokens` (lines 50-67): whitespace word count. -/
def defaultCountTokens (text : Str) : Nat :=
  if text = [] then 0 else (pySplitWs text).length

example : defaultChunkTextF ⟨12, 0⟩ 0 "One. Two two. Three.".toList =
    some ["One. Two two.".toList, "Three.".toList] := by decide

example : defaultSplitSentences "A.\nB.".toList = ["A.".toList, "B.".toList] := by
  decide

example : pyFind "abcabc".toList "ca".toList 0 = some 2 := by decide

example : pyRFindSpace "ab a b".toList 0 5 = some 4 := by decide

/-! ### JapaneseChunker (`chunker/japanese.py`) -/

/-- `JapaneseChunker.SENTENCE_ENDINGS`. -/
def jaIsSentEnd (c : Char) : Bool :=
  c = '。' || c = '！' || c = '？' || c = '…' || c = '‥'

/-- `JapaneseChunker.PHRASE_MARKERS`. -/
def jaIsPhraseMarker (c : Char) : Bool :=
  c = '、' || c = '　' || c = '\n'

/-- Scanner of `JapaneseChunker._split_sentences` (lines 117-131):
`cur` is the running sentence, reversed. -/
def jaSplitAux (acc : List Str) (cur : Str) : Str → List Str
  | [] => if pyStrip cur.reverse ≠ [] then acc ++ [pyStrip cur.reverse] else acc
  | c :: cs =>
    if jaIsSentEnd c then
      if pyStrip (c :: cur).reverse ≠ [] then
        jaSplitAux (acc ++ [pyStrip (c :: cur).reverse]) [] cs
      else jaSplitAux acc [] cs
    else jaSplitAux acc (c :: cur) cs

/-- `JapaneseChunker._split_sentences`. -/
def jaSplitSentences (text : Str) : List Str :=
  if text = [] then [] else jaSplitAux [] [] text

/-- The external morphological backend (fugashi/MeCab): availability flag
and the surface forms its tagger returns for a text (external collaborator
of §6 of the spec, behaviour abstract). -/
structure MorphEnv where
  fugashi : Bool
  tagger : Str → List Str

/-- Fallback branch of `JapaneseChunker._find_phrase_boundary`
(lines 152-161) for `direction = 1`: first phrase marker or sentence
ending at or after `pos`, else `pos` itself. -/
def jaFindBoundaryFallback (text : Str) (pos : Nat) : Nat :=
  match (text.drop pos).findIdx? (fun c => jaIsPhraseMarker c || jaIsSentEnd c) with
  | some k => pos + k
  | none => pos

/-- First element of `bs` minimising the distance to `target`, starting
from `closest = target, min_dist = inf` (lines 181-191). -/
def jaClosestBoundary (target : Nat) (bs : List Nat) : Nat :=
  (bs.foldl
    (fun best b =>
      match best.2 with
      | none => (b, some (Nat.dist b target))
      | some d => if Nat.dist b target < d then (b, some (Nat.dist b target)) else best)
    (target, none)).1

/-- Morphological branch of `JapaneseChunker._find_phrase_boundary`
(lines 163-191): analyse a ±50 character window and snap to the nearest
morpheme boundary. -/
def jaFindBoundaryFugashi (tagger : Str → List Str) (text : Str) (pos : Nat) : Nat :=
  let start := pos - 50
  let stop := min text.length (pos + 50)
  let context := pySlice text start stop
  let ms := tagger context
  let boundaries :=
    start :: (ms.foldl (fun acc m => acc ++ [acc.getLast! + m.length]) [start]).tail
  jaClosestBoundary pos boundaries

/-- `JapaneseChunker._find_phrase_boundary` dispatching on backend
availability. -/
def jaFindBoundary (env : MorphEnv) (text : Str) (pos : Nat) : Nat :=
  if env.fugashi then jaFindBoundaryFugashi env.tagger text pos
  else jaFindBoundaryFallback text pos

/-- One iteration of the sentence loop of `JapaneseChunker.chunk_text`
(lines 216-234); state is (finished chunks, current chunk). -/
def jaStep (cfg : ChunkerCfg) (fb : Str → Nat → Nat)
    (st : List Str × Str) (s : Str) : List Str × Str :=
  let st1 :=
    if st.2.length + s.length > cfg.chunk_size then
      if st.2 ≠ [] then
        let chunks1 := st.1 ++ [pyStrip st.2]
        let cur1 :=
          if cfg.chunk_overlap > 0 && st.2.length > cfg.chunk_overlap then
            let os := fb st.2 (st.2.length - cfg.chunk_overlap)
            st.2.drop os
          else []
        (chunks1, cur1)
      else st
    else st
  (st1.1, st1.2 ++ s)

/-- Sentence-path body of `JapaneseChunker.chunk_text` (lines 213-240). -/
def jaSentenceChunks (cfg : ChunkerCfg) (fb : Str → Nat → Nat)
    (sentences : List Str) : List Str :=
  let st := sentences.foldl (jaStep cfg fb) ([], [])
  st.1 ++ (if pyStrip st.2 ≠ [] then [pyStrip st.2] else [])

/-- Fueled character fallback of `JapaneseChunker._chunk_by_morphemes`
(lines 253-263, no backend); `none` = out of fuel. -/
def jaCharFallbackF (cfg : ChunkerCfg) (text : Str) :
    Nat → Nat → Option (List Str)
  | 0, _ => none
  | fuel + 1, start =>
    if start < text.length then
      let e := min (start + cfg.chunk_size) text.length
      let s1 := if e ≤ cfg.chunk_overlap then e else e - cfg.chunk_overlap
      (jaCharFallbackF cfg text fuel s1).map
        (fun rest => pySlice text start e :: rest)
    else some []

/-- One iteration of the morpheme loop of
`JapaneseChunker._chunk_by_morphemes` (lines 271-285). -/
def jaMorphStep (cfg : ChunkerCfg) (st : List Str × Str) (m : Str) :
    List Str × Str :=
  let st1 :=
    if st.2.length + m.length > cfg.chunk_size then
      if st.2 ≠ [] then
        let cur1 :=
          if cfg.chunk_overlap > 0 then st.2.drop (st.2.length - cfg.chunk_overlap)
          else []
        (st.1 ++ [st.2], cur1)
      else st
    else st
  (st1.1, st1.2 ++ m)

/-- Morpheme-path body of `JapaneseChunker._chunk_by_morphemes`
(lines 265-290). -/
def jaMorphemeChunks (cfg : ChunkerCfg) (morphemes : List Str) : List Str :=
  let st := morphemes.foldl (jaMorphStep cfg) ([], [])
  st.1 ++ (if st.2 ≠ [] then [st.2] else [])

/-- `JapaneseChunker.chunk_text` (lines 193-240) with fuel for the
character fallback. -/
def jaChunkTextF (env : MorphEnv) (cfg : ChunkerCfg) (fuel : Nat)
    (text : Str) : Option (List Str) :=
  if text = [] then some []
  else
    let sentences := jaSplitSentences text
    if sentences = [] then
      if env.fugashi then some (jaMorphemeChunks cfg (env.tagger text))
      else jaCharFallbackF cfg text fuel 0
    else some (jaSentenceChunks cfg (jaFindBoundary env) sentences)

/-- `JapaneseChunker.count_tokens` (lines 80-101). -/
def jaCountTokens (env : MorphEnv) (text : Str) : Nat :=
  if text = [] then 0
  else if env.fugashi then (env.tagger text).length
  else text.length

example :
    jaChunkTextF ⟨false, fun _ => []⟩ ⟨10, 0⟩ 0 "これは。短い。".toList =
      some ["これは。短い。".toList] := by decide

example :
    jaChunkTextF ⟨false, fun _ => []⟩ ⟨4, 0⟩ 0 "これは。短い。".toList =
      some ["これは。".toList, "短い。".toList] := by decide

/-! ### Data model (`models.py`)

Random UUIDs are modelled by deterministic `Nat` identifiers: no claim
depends on id values, only on id identity within one run. -/

/-- `models.NormalizedElement` (the fields the pipeline reads). -/
structure NormalizedElement where
  id : Nat
  element_type : ElementType
  text : Str
  language : Language
  page_number : Option Int
  position : Nat
  parent_id : Option Nat
  heading_level : Option Nat
  deriving DecidableEq, Repr

/-- `models.TextChunk`. -/
structure TextChunk where
  id : Nat
  text : Str
  language : Language
  source_elements : List Nat
  document_id : Nat
  chunk_index : Int
  start_char : Nat
  end_char : Nat
  token_count : Nat
  deriving DecidableEq, Repr

/-- `models.ChunkCorrelation`; the `metadata` dict is modelled by its two
possible entries (`distance`, `similarity_score`). -/
structure ChunkCorrelation where
  source_chunk_id : Nat
  target_chunk_id : Nat
  correlation_type : CorrelationType
  weight : ℚ
  mdDistance : Option Nat
  mdSimilarity : Option ℚ
  deriving DecidableEq, Repr

/-- `models.CorrelationGraph`. -/
structure CorrelationGraph where
  document_id : Nat
  nodes : List Nat
  edges : List ChunkCorrelation
  node_count : Nat
  edge_count : Nat
  density : ℚ
  deriving DecidableEq, Repr

/-- `CorrelationGraph.add_correlation` followed by `_update_density`
(models.py lines 170-180): append the edge, refresh `edge_count`, and
recompute density only when `node_count > 1`. -/
def addCorrelation (g : CorrelationGraph) (c : ChunkCorrelation) :
    CorrelationGraph :=
  let edges1 := g.edges ++ [c]
  let g1 := { g with edges := edges1, edge_count := edges1.length }
  if g1.node_count > 1 then
    let maxEdges : ℚ := (g1.node_count * (g1.node_count - 1) : ℕ) / 2
    { g1 with density := if maxEdges > 0 then g1.edge_count / maxEdges else 0 }
  else g1

/-! ### BaseChunker.chunk_elements (`chunker/base.py`) -/

/-- The concatenation loop of `BaseChunker._combine_element_text`
(lines 88-93): element texts separated by `"\n\n"`, with each element's
`(start, end, id)` span recorded. -/
def combineRaw (elements : List NormalizedElement) :
    Str × List (Nat × Nat × Nat) :=
  elements.foldl
    (fun (acc : Str × List (Nat × Nat × Nat)) e =>
      let s := acc.1.length
      let combined1 := acc.1 ++ e.text
      (combined1 ++ ['\n', '\n'], acc.2 ++ [(s, combined1.length, e.id)]))
    ([], [])

/-- `BaseChunker._combine_element_text` (lines 73-95): the concatenation,
right-stripped, plus the recorded spans. -/
def combineElementText (elements : List NormalizedElement) :
    Str × List (Nat × Nat × Nat) :=
  (pyRStrip (combineRaw elements).1, (combineRaw elements).2)

/-- `BaseChunker._find_source_elements` (lines 97-120): ids of spans
overlapping `[chunk_start, chunk_end)`. -/
def findSourceElements (chunk_start chunk_end : Nat)
    (positions : List (Nat × Nat × Nat)) : List Nat :=
  (positions.filter
    (fun p => decide (p.1 < chunk_end) && decide (p.2.1 > chunk_start))).map
    (fun p => p.2.2)

/-- One iteration of the offset-recovery loop of
`BaseChunker.chunk_elements` (lines 149-172): locate the chunk text by
forward search from just past the previous chunk's start, falling back to
the current search position when the search fails.  State is
(chunks so far, next index, search position). -/
def buildChunksStep (combined : Str) (positions : List (Nat × Nat × Nat))
    (countTokens : Str → Nat) (language : Language) (docId : Nat)
    (st : List TextChunk × Nat × Nat) (t : Str) :
    List TextChunk × Nat × Nat :=
  let s := match pyFind combined t st.2.2 with
    | some v => v
    | none => st.2.2
  let e := s + t.length
  let chunk : TextChunk :=
    { id := st.2.1
      text := t
      language := language
      source_elements := findSourceElements s e positions
      document_id := docId
      chunk_index := (st.2.1 : Int)
      start_char := s
      end_char := e
      token_count := countTokens t }
  (st.1 ++ [chunk], st.2.1 + 1, s + 1)

/-- The offset-recovery loop of `BaseChunker.chunk_elements`
(lines 146-173). -/
def buildChunks (combined : Str) (positions : List (Nat × Nat × Nat))
    (countTokens : Str → Nat) (language : Language) (docId : Nat)
    (texts : List Str) : List TextChunk :=
  (texts.foldl (buildChunksStep combined positions countTokens language docId)
    ([], 0, 0)).1

/-- `BaseChunker.chunk_elements` (lines 122-174), generic over the
concrete chunker's `chunk_text` (fueled) and `count_tokens`. -/
def chunkElementsF (chunkText : Str → Option (List Str))
    (countTokens : Str → Nat) (language : Language) (docId : Nat)
    (elements : List NormalizedElement) : Option (List TextChunk) :=
  if elements = [] then some []
  else
    let ct := combineElementText elements
    (chunkText ct.1).map (buildChunks ct.1 ct.2 countTokens language docId)

/-! ### CorrelationBuilder (`correlation.py`) -/

/-- Lower-cased whitespace-tokenised word set of a chunk text
(`chunk.text.lower().split()` as a set, lines 133 and 143). -/
def wordSet (t : Str) : Finset Str := (pySplitWs (t.map pyToLower)).toFinset

/-- Jaccard similarity as computed at lines 146-148: `|A∩B| / |A∪B|`,
`0` when the union is empty. -/
def jaccard (a b : Str) : ℚ :=
  let A := wordSet a
  let B := wordSet b
  let u := (A ∪ B).card
  if u > 0 then ((A ∩ B).card : ℚ) / u else 0

/-- The `adjacent` edge for one consecutive pair (lines 106-112). -/
def mkAdjacentEdge (a b : TextChunk) : ChunkCorrelation :=
  { source_chunk_id := a.id
    target_chunk_id := b.id
    correlation_type := .adjacent
    weight := 1
    mdDistance := some 1
    mdSimilarity := none }

/-- The `semantic` edge for one qualifying pair (lines 151-157). -/
def mkSemanticEdge (a b : TextChunk) : ChunkCorrelation :=
  { source_chunk_id := a.id
    target_chunk_id := b.id
    correlation_type := .semantic
    weight := jaccard a.text b.text
    mdDistance := none
    mdSimilarity := some (jaccard a.text b.text) }

/-- Edges added by `_add_adjacent_correlations` (lines 86-113), in loop
order: consecutive pairs of the chunk list sorted (stably) by
`chunk_index`. -/
def adjacentEdges (chunks : List TextChunk) : List ChunkCorrelation :=
  let sorted := chunks.mergeSort (fun a b => a.chunk_index ≤ b.chunk_index)
  (sorted.zip sorted.tail).map (fun p => mkAdjacentEdge p.1 p.2)

/-- Edges added by `_add_semantic_correlations` (lines 115-158), in loop
order: list-position pairs `i < j` whose `chunk_index` distance exceeds 1
and whose Jaccard similarity reaches the threshold. -/
def semanticEdges (threshold : ℚ) (chunks : List TextChunk) :
    List ChunkCorrelation :=
  chunks.enum.flatMap (fun ia =>
    chunks.enum.filterMap (fun jb =>
      if ia.1 ≥ jb.1 then none
      else if (ia.2.chunk_index - jb.2.chunk_index).natAbs ≤ 1 then none
      else if jaccard ia.2.text jb.2.text ≥ threshold then
        some (mkSemanticEdge ia.2 jb.2)
      else none))

/-- `CorrelationBuilder` configuration (`__init__`, lines 35-51). -/
structure CorrelationBuilderCfg where
  similarity_threshold : ℚ
  build_adjacent : Bool
  build_semantic : Bool
  deriving DecidableEq, Repr

/-- `CorrelationBuilder.build_graph` (lines 53-84); the fresh
`document_id` of the empty case (a random uuid) is modelled as `0`. -/
def buildGraph (b : CorrelationBuilderCfg) (chunks : List TextChunk) :
    CorrelationGraph :=
  match chunks with
  | [] =>
    { document_id := 0, nodes := [], edges := [],
      node_count := 0, edge_count := 0, density := 0 }
  | c0 :: _ =>
    let g0 : CorrelationGraph :=
      { document_id := c0.document_id
        nodes := chunks.map (·.id)
        edges := []
        node_count := chunks.length
        edge_count := 0
        density := 0 }
    let g1 := if b.build_adjacent then
        (adjacentEdges chunks).foldl addCorrelation g0
      else g0
    if b.build_semantic then
      (semanticEdges b.similarity_threshold chunks).foldl addCorrelation g1
    else g1

/-! ### ElementNormalizer (`normalizer.py`) -/

/-- Outcome of the external `langdetect` backend on one text: a detected
code that maps to a `Language` (the map at lines 103-109 sends unmapped
codes to `unknown`), or a `LangDetectException`. -/
inductive DetectOutcome where
  | lang (l : Language)
  | unmapped
  | failed
  deriving DecidableEq, Repr

/-- `ElementNormalizer` configuration plus the state of its external
language-detection backend. -/
structure NormCfg where
  detect_language : Bool
  default_language : Language
  min_text_length : Nat
  langdetectAvailable : Bool
  detector : Str → DetectOutcome

/-- A raw parsed element as consumed by the normalizer: the fields of an
`unstructured` element that `normalize` reads (category label, `str()`
text, metadata page number / parent id). -/
structure RawElement where
  category : Option Str
  text : Str
  page_number : Option Int
  parent_id : Option Nat

/-- `ElementNormalizer.ELEMENT_TYPE_MAP` (lines 37-51); unknown categories
map to `uncategorized`. -/
def elementTypeOfCategory (c : Str) : ElementType :=
  if c = "Title".toList then .title
  else if c = "NarrativeText".toList then .narrativeText
  else if c = "ListItem".toList then .listItem
  else if c = "Table".toList then .table
  else if c = "Image".toList then .image
  else if c = "Header".toList then .header
  else if c = "Footer".toList then .footer
  else if c = "PageBreak".toList then .pageBreak
  else if c = "Formula".toList then .formula
  else if c = "FigureCaption".toList then .narrativeText
  else if c = "Address".toList then .narrativeText
  else if c = "EmailAddress".toList then .narrativeText
  else if c = "CodeSnippet".toList then .code
  else .uncategorized

/-- `ElementNormalizer._detect_language` (lines 82-113). -/
def detectLanguage (cfg : NormCfg) (text : Str) : Language :=
  if ¬cfg.detect_language ∨ text = [] ∨ text.length < 20 then
    cfg.default_language
  else if ¬cfg.langdetectAvailable then cfg.default_language
  else
    match cfg.detector text with
    | .lang l => l
    | .unmapped => .unknown
    | .failed => cfg.default_language

/-- `ElementNormalizer.normalize` (lines 187-236); the random element
uuid is modelled by the element's position. -/
def normalize (cfg : NormCfg) (e : RawElement) (position : Nat) :
    Option NormalizedElement :=
  if (pyStrip e.text).length < cfg.min_text_length then none
  else
    let etype := match e.category with
      | some c => elementTypeOfCategory c
      | none => .uncategorized
    if etype = .pageBreak ∧ pyStrip e.text = [] then none
    else
      some
        { id := position
          element_type := etype
          text := e.text
          language := detectLanguage cfg e.text
          page_number := e.page_number
          position := position
          parent_id := e.parent_id
          heading_level := if etype = .title then some 1 else none }

/-- `ElementNormalizer.normalize_all` (lines 238-257). -/
def normalizeAll (cfg : NormCfg) (elements : List RawElement) :
    List NormalizedElement :=
  (elements.enum.filterMap (fun pe => normalize cfg pe.2 pe.1))

/-- Update the insertion-ordered score list the way a Python dict
assignment `lang_scores[lang] = lang_scores.get(lang, 0) + n` does. -/
def bumpScore (m : List (Language × Nat)) (l : Language) (n : Nat) :
    List (Language × Nat) :=
  if m.any (fun p => p.1 = l) then
    m.map (fun p => if p.1 = l then (p.1, p.2 + n) else p)
  else m ++ [(l, n)]

/-- The score table built at lines 278-284: cumulative text length per
non-`unknown` element language, in first-occurrence order. -/
def langScores (elements : List NormalizedElement) : List (Language × Nat) :=
  elements.foldl
    (fun m e => if e.language ≠ .unknown then bumpScore m e.language e.text.length else m)
    []

/-- Python `max(items, key=value)`: the first item (in iteration order)
whose value is maximal. -/
def firstMaxByScore (s : Language × Nat) (rest : List (Language × Nat)) :
    Language × Nat :=
  rest.foldl (fun best x => if x.2 > best.2 then x else best) s

/-- `ElementNormalizer.detect_document_language` (lines 259-290). -/
def detectDocumentLanguage (cfg : NormCfg)
    (elements : List NormalizedElement) : Language :=
  if elements = [] then cfg.default_language
  else
    match langScores elements with
    | [] => cfg.default_language
    | s :: rest => (firstMaxByScore s rest).1

/-! ### DocumentParser and DocumentImporter (`parser.py`, `importer.py`) -/

/-- `models.ImportConfig` (the validated configuration record). -/
structure ImportConfig where
  chunk_size : Nat
  chunk_overlap : Nat
  auto_detect_language : Bool
  default_language : Language
  build_correlation_graph : Bool
  semantic_similarity_threshold : ℚ
  deriving DecidableEq, Repr

/-- Pydantic field validation of `ImportConfig` (models.py lines 183-226):
`chunk_size` has `ge=100, le=10000`, `chunk_overlap` has `ge=0`, and
`semantic_similarity_threshold` has `ge=0.0, le=1.0`; no other constraint
is declared. -/
def importConfigValid (chunk_size chunk_overlap : Int)
    (semantic_similarity_threshold : ℚ) : Bool :=
  decide (100 ≤ chunk_size) && decide (chunk_size ≤ 10000) &&
  decide (0 ≤ chunk_overlap) &&
  decide (0 ≤ semantic_similarity_threshold) &&
  decide (semantic_similarity_threshold ≤ 1)

/-- The exceptions that can cross the stage boundaries of
`import_document` (parser.py, importer.py). -/
inductive PyErr where
  | fileNotFound
  | notAFile
  | unsupportedFormat
  | unstructuredMissing
  | parseFailure (msg : Str)
  deriving DecidableEq, Repr

/-- Python `str(e)` for the modelled exceptions (the concrete message
text is abbreviated; only its identity matters to the claims). -/
def pyErrStr : PyErr → Str
  | .fileNotFound => "File not found".toList
  | .notAFile => "Not a file".toList
  | .unsupportedFormat => "Unsupported format".toList
  | .unstructuredMissing => "The unstructured library is required".toList
  | .parseFailure m => "Failed to parse: ".toList ++ m

/-- `DocumentParser.SUPPORTED_FORMATS` (parser.py lines 57-65). -/
def supportedFormats : List Str :=
  [".pdf".toList, ".docx".toList, ".pptx".toList, ".html".toList,
   ".htm".toList, ".md".toList, ".txt".toList]

/-- One file-system input to `import_document`: what the OS and the
external `unstructured.partition` backend would report for the path. -/
structure FileInput where
  fileExists : Bool
  isFile : Bool
  size : Nat
  suffix : Str
  unstructuredAvailable : Bool
  parseOutcome : Except Str (List RawElement)

/-- `DocumentParser.parse` (parser.py lines 112-162): validate existence,
file-ness and extension, require the backend, then run the external
partition call, wrapping its failures in `DocumentParseError`. -/
def parserParse (input : FileInput) : Except PyErr (List RawElement) :=
  if ¬input.fileExists then .error .fileNotFound
  else if ¬input.isFile then .error .notAFile
  else if ¬(supportedFormats.contains input.suffix) then .error .unsupportedFormat
  else if ¬input.unstructuredAvailable then .error .unstructuredMissing
  else
    match input.parseOutcome with
    | .error m => .error (.parseFailure m)
    | .ok es => .ok es

/-- `models.DocumentMetadata` (the fields the importer sets). -/
structure DocumentMetadata where
  file_size : Nat
  file_type : Str
  language : Language
  deriving DecidableEq, Repr

/-- `models.ImportResult` (wall-clock `processing_time_seconds` is not
modelled; random uuids are modelled as `0`). -/
structure ImportResult where
  status : Str
  document_metadata : DocumentMetadata
  elements : List NormalizedElement
  element_count : Nat
  chunks : List TextChunk
  chunk_count : Nat
  correlation_graph : Option CorrelationGraph
  total_tokens : Nat
  errors : List Str
  warnings : List Str
  deriving DecidableEq, Repr

/-- `DocumentImporter` state: its constructor-time config, its normalizer,
and the per-language chunker cache `self._chunkers` (an insertion-ordered
dict; the cached instance is summarised by its size configuration, the
only state a chunker carries besides its language). -/
structure Importer where
  normCfg : NormCfg
  config : ImportConfig
  chunkers : List (Language × ChunkerCfg)

/-- `DocumentImporter._get_chunker` (importer.py lines 65-81):
get-or-create from the cache; a fresh chunker is built from the
constructor-time `self.config` sizes. -/
def getChunker (imp : Importer) (language : Language) :
    ChunkerCfg × Importer :=
  match imp.chunkers.find? (fun p => p.1 = language) with
  | some p => (p.2, imp)
  | none =>
    let c : ChunkerCfg := ⟨imp.config.chunk_size, imp.config.chunk_overlap⟩
    (c, { imp with chunkers := imp.chunkers ++ [(language, c)] })

/-- Language dispatch of `chunker/factory.py`: `chunk_text` of the cached
chunker. -/
def chunkTextOf (env : MorphEnv) (language : Language) (cfg : ChunkerCfg)
    (fuel : Nat) (text : Str) : Option (List Str) :=
  if language = .japanese then jaChunkTextF env cfg fuel text
  else defaultChunkTextF cfg fuel text

/-- Language dispatch of `count_tokens`. -/
def countTokensOf (env : MorphEnv) (language : Language) (text : Str) : Nat :=
  if language = .japanese then jaCountTokens env text
  else defaultCountTokens text

/-- `DocumentImporter.import_document` (importer.py lines 107-174).
`some (.error e)` models an exception propagating out of the call,
`some (.ok (r, imp))` a returned result plus the post-call importer
state, and `none` the chunking loop not finishing within `fuel`.
`_create_document_metadata` calls `file_path.stat()` before the `try`
block, so a missing file raises there; every exception inside the `try`
is caught and recorded in `result.errors` with `status = "error"`. -/
def importDocumentF (env : MorphEnv) (imp : Importer) (input : FileInput)
    (override : Option ImportConfig) (fuel : Nat) :
    Option (Except PyErr (ImportResult × Importer)) :=
  let cfg := override.getD imp.config
  if ¬input.fileExists then some (.error .fileNotFound)
  else
    let meta0 : DocumentMetadata :=
      { file_size := input.size, file_type := input.suffix,
        language := .unknown }
    match parserParse input with
    | .error e =>
      some (.ok
        ({ status := "error".toList
           document_metadata := meta0
           elements := []
           element_count := 0
           chunks := []
           chunk_count := 0
           correlation_graph := none
           total_tokens := 0
           errors := [pyErrStr e]
           warnings := [] }, imp))
    | .ok raw =>
      let elements := normalizeAll imp.normCfg raw
      let detected := detectDocumentLanguage imp.normCfg elements
      let language :=
        if cfg.auto_detect_language then detected else cfg.default_language
      let meta := { meta0 with language := language }
      let ci := getChunker imp language
      match chunkElementsF (chunkTextOf env language ci.1 fuel)
          (countTokensOf env language) language 0 elements with
      | none => none
      | some chunks =>
        let graph :=
          if cfg.build_correlation_graph then
            some (buildGraph
              ⟨cfg.semantic_similarity_threshold, true, true⟩ chunks)
          else none
        some (.ok
          ({ status := "success".toList
             document_metadata := meta
             elements := elements
             element_count := elements.length
             chunks := chunks
             chunk_count := chunks.length
             correlation_graph := graph
             total_tokens := (chunks.map (·.token_count)).sum
             errors := []
             warnings := [] }, ci.2))

/-- Whether a modelled call raised (its exception escaped). -/
def raisedException (o : Option (Except PyErr (ImportResult × Importer))) :
    Bool :=
  match o with
  | some (.error _) => true
  | _ => false

/-- The status of a normally returned result, when there is one. -/
def returnedStatus (o : Option (Except PyErr (ImportResult × Importer))) :
    Option Str :=
  match o with
  | some (.ok (r, _)) => some r.status
  | _ => none

/-- The recorded errors of a normally returned result. -/
def returnedErrors (o : Option (Except PyErr (ImportResult × Importer))) :
    Option (List Str) :=
  match o with
  | some (.ok (r, _)) => some r.errors
  | _ => none

/-- The chunk texts of a normally returned result. -/
def returnedChunkTexts (o : Option (Except PyErr (ImportResult × Importer))) :
    Option (List Str) :=
  match o with
  | some (.ok (r, _)) => some (r.chunks.map (·.text))
  | _ => none

/-- Reading of claim C9 (and spec §4.1): the maximum is taken only over
elements whose language differs from the configured default language. -/
def detectDocumentLanguageClaimed (cfg : NormCfg)
    (elements : List NormalizedElement) : Language :=
  if elements = [] then cfg.default_language
  else
    match (elements.filter (fun e => e.language ≠ cfg.default_language)).foldl
        (fun m e => bumpScore m e.language e.text.length) [] with
    | [] => cfg.default_language
    | s :: rest => (firstMaxByScore s rest).1

/-! ## Supporting lemmas -/

theorem addCorrelation_edges (g : CorrelationGraph) (c : ChunkCorrelation) :
    (addCorrelation g c).edges = g.edges ++ [c] := by
  unfold addCorrelation
  dsimp only
  split <;> rfl

theorem foldl_addCorrelation_edges (es : List ChunkCorrelation)
    (g : CorrelationGraph) :
    (es.foldl addCorrelation g).edges = g.edges ++ es := by
  induction es generalizing g with
  | nil => simp
  | cons c cs ih =>
    simp only [List.foldl_cons, ih, addCorrelation_edges, List.append_assoc,
      List.singleton_append]

theorem adjacentEdges_nil : adjacentEdges [] = [] := by
  simp [adjacentEdges]

theorem semanticEdges_nil (θ : ℚ) : semanticEdges θ [] = [] := by
  rfl

theorem buildGraph_edges (b : CorrelationBuilderCfg)
    (chunks : List TextChunk) :
    (buildGraph b chunks).edges =
      (if b.build_adjacent then adjacentEdges chunks else []) ++
      (if b.build_semantic then semanticEdges b.similarity_threshold chunks
       else []) := by
  cases chunks with
  | nil =>
    simp [buildGraph, adjacentEdges_nil, semanticEdges_nil]
  | cons c cs =>
    unfold buildGraph
    cases hadj : b.build_adjacent <;> cases hsem : b.build_semantic <;>
      simp [hadj, hsem, foldl_addCorrelation_edges]

theorem mem_adjacentEdges_fields (chunks : List TextChunk)
    (e : ChunkCorrelation) (h : e ∈ adjacentEdges chunks) :
    e.correlation_type = CorrelationType.adjacent ∧ e.weight = 1 ∧
      e.mdDistance = some 1 := by
  unfold adjacentEdges at h
  rcases List.mem_map.mp h with ⟨p, _, rfl⟩
  exact ⟨rfl, rfl, rfl⟩

theorem mem_semanticEdges_iff (θ : ℚ) (chunks : List TextChunk)
    (e : ChunkCorrelation) :
    e ∈ semanticEdges θ chunks ↔
      ∃ (i j : Nat) (a b : TextChunk),
        i < j ∧ chunks[i]? = some a ∧ chunks[j]? = some b ∧
        1 < (a.chunk_index - b.chunk_index).natAbs ∧
        θ ≤ jaccard a.text b.text ∧ e = mkSemanticEdge a b := by
  unfold semanticEdges
  rw [List.mem_flatMap]
  constructor
  · rintro ⟨ia, hia, hf⟩
    rw [List.mem_filterMap] at hf
    rcases hf with ⟨jb, hjb, heq⟩
    by_cases h1 : ia.1 ≥ jb.1
    · rw [if_pos h1] at heq; cases heq
    rw [if_neg h1] at heq
    by_cases h2 : (ia.2.chunk_index - jb.2.chunk_index).natAbs ≤ 1
    · rw [if_pos h2] at heq; cases heq
    rw [if_neg h2] at heq
    by_cases h3 : jaccard ia.2.text jb.2.text ≥ θ
    · rw [if_pos h3] at heq
      cases heq
      exact ⟨ia.1, jb.1, ia.2, jb.2, by omega,
        List.mem_enum_iff_getElem?.mp hia, List.mem_enum_iff_getElem?.mp hjb,
        by omega, h3, rfl⟩
    · rw [if_neg h3] at heq; cases heq
  · rintro ⟨i, j, a, b, hij, ha, hb, hd, hθ, rfl⟩
    refine ⟨(i, a), List.mem_enum_iff_getElem?.mpr ha, ?_⟩
    rw [List.mem_filterMap]
    refine ⟨(j, b), List.mem_enum_iff_getElem?.mpr hb, ?_⟩
    dsimp only
    rw [if_neg (by omega), if_neg (by omega), if_pos hθ]

theorem mem_semanticEdges_type (θ : ℚ) (chunks : List TextChunk)
    (e : ChunkCorrelation) (h : e ∈ semanticEdges θ chunks) :
    e.correlation_type = CorrelationType.semantic := by
  rcases (mem_semanticEdges_iff θ chunks e).mp h with
    ⟨_, _, _, _, _, _, _, _, _, rfl⟩
  rfl

/-! ## Claims -/

/-- C10: `chunk_text("")` returns the empty sequence for every chunker
(any size configuration, any backend state, any fuel), and `build_graph`
on an empty chunk list returns a graph with `node_count = 0`,
`edge_count = 0` and `density = 0.0` without error. -/
theorem c10_empty_inputs :
    ∀ (cfg : ChunkerCfg) (env : MorphEnv) (fuel : Nat)
      (b : CorrelationBuilderCfg),
      defaultChunkTextF cfg fuel [] = some [] ∧
      jaChunkTextF env cfg fuel [] = some [] ∧
      (buildGraph b []).node_count = 0 ∧
      (buildGraph b []).edge_count = 0 ∧
      (buildGraph b []).density = 0 := by
  intro cfg env fuel b
  exact ⟨rfl, rfl, rfl, rfl, rfl⟩

/-- C2 counterexample: pydantic accepts `chunk_size = 100` together with
`chunk_overlap = 200 ≥ chunk_size` (and the default threshold 0.7); the
claimed rejection of `chunk_overlap ≥ chunk_size` does not happen. -/
theorem c2_overlap_ge_size_accepted :
    importConfigValid 100 200 (7/10) = true := by
  simp only [importConfigValid]
  norm_num

/-- C2 (amended): constructing an `ImportConfig` succeeds exactly when
`chunk_size ∈ [100, 10000]`, `chunk_overlap ≥ 0` and
`semantic_similarity_threshold ∈ [0, 1]`; no relation between
`chunk_overlap` and `chunk_size` is enforced. -/
theorem c2_validation_exact :
    ∀ (cs co : Int) (θ : ℚ),
      importConfigValid cs co θ = true ↔
        (100 ≤ cs ∧ cs ≤ 10000 ∧ 0 ≤ co ∧ 0 ≤ θ ∧ θ ≤ 1) := by
  intro cs co θ
  simp [importConfigValid, and_assoc]

/-- C8: with adjacency enabled, `build_graph` over `n` chunks produces
exactly `max(n-1, 0)` edges of type `adjacent` — one per consecutive pair
of the chunk list sorted stably by `chunk_index` — each with weight 1.0
and metadata `distance = 1`, regardless of the semantic flag. -/
theorem c8_adjacent_edge_shape :
    ∀ (bsem : Bool) (θ : ℚ) (chunks : List TextChunk),
      ((buildGraph ⟨θ, true, bsem⟩ chunks).edges.filter
          (fun e => e.correlation_type = CorrelationType.adjacent)).length =
        chunks.length - 1 ∧
      (∀ e ∈ (buildGraph ⟨θ, true, bsem⟩ chunks).edges.filter
          (fun e => e.correlation_type = CorrelationType.adjacent),
        e.weight = 1 ∧ e.mdDistance = some 1) ∧
      (buildGraph ⟨θ, true, bsem⟩ chunks).edges.filter
          (fun e => e.correlation_type = CorrelationType.adjacent) =
        ((chunks.mergeSort (fun a b => a.chunk_index ≤ b.chunk_index)).zip
            (chunks.mergeSort (fun a b => a.chunk_index ≤ b.chunk_index)).tail).map
          (fun p => mkAdjacentEdge p.1 p.2) := by
  intro bsem θ chunks
  have hedges := buildGraph_edges ⟨θ, true, bsem⟩ chunks
  simp only at hedges
  have hfilter :
      (buildGraph ⟨θ, true, bsem⟩ chunks).edges.filter
          (fun e => e.correlation_type = CorrelationType.adjacent) =
        adjacentEdges chunks := by
    rw [hedges, if_pos trivial, List.filter_append]
    have h1 : (adjacentEdges chunks).filter
        (fun e => e.correlation_type = CorrelationType.adjacent) =
        adjacentEdges chunks := by
      rw [List.filter_eq_self]
      intro e he
      simp [(mem_adjacentEdges_fields chunks e he).1]
    have h2 : (if bsem then semanticEdges θ chunks else []).filter
        (fun e => e.correlation_type = CorrelationType.adjacent) = [] := by
      cases bsem with
      | false => rfl
      | true =>
        rw [if_pos rfl, List.filter_eq_nil_iff]
        intro e he
        simp [mem_semanticEdges_type θ chunks e he]
    rw [h1, h2, List.append_nil]
  refine ⟨?_, ?_, ?_⟩
  · rw [hfilter]
    unfold adjacentEdges
    rw [List.length_map, List.length_zip, List.length_tail,
      List.length_mergeSort]
    omega
  · intro e he
    rw [hfilter] at he
    exact (mem_adjacentEdges_fields chunks e he).2
  · rw [hfilter]; rfl

/-- C7: with semantic correlation enabled, the `semantic` edges of
`build_graph` are exactly those for list-position pairs `i < j` whose
`chunk_index` distance exceeds 1 and whose Jaccard similarity of
lower-cased whitespace-tokenised word sets reaches the threshold; each
such edge carries the similarity as its weight. -/
theorem c7_semantic_edge_characterisation :
    ∀ (badj : Bool) (θ : ℚ) (chunks : List TextChunk) (e : ChunkCorrelation),
      (e ∈ (buildGraph ⟨θ, badj, true⟩ chunks).edges ∧
          e.correlation_type = CorrelationType.semantic) ↔
        ∃ (i j : Nat) (a b : TextChunk),
          i < j ∧ chunks[i]? = some a ∧ chunks[j]? = some b ∧
          1 < (a.chunk_index - b.chunk_index).natAbs ∧
          θ ≤ jaccard a.text b.text ∧ e = mkSemanticEdge a b := by
  intro badj θ chunks e
  rw [← mem_semanticEdges_iff]
  have hedges := buildGraph_edges ⟨θ, badj, true⟩ chunks
  simp only at hedges
  rw [hedges, if_pos trivial]
  constructor
  · rintro ⟨hmem, htype⟩
    rcases List.mem_append.mp hmem with h | h
    · exfalso
      cases badj with
      | false => simp at h
      | true =>
        rw [if_pos rfl] at h
        have := (mem_adjacentEdges_fields chunks e h).1
        rw [this] at htype
        cases htype
    · exact h
  · intro h
    exact ⟨List.mem_append.mpr (Or.inr h), mem_semanticEdges_type θ chunks e h⟩

/-- A 200-space text: whitespace-only, so both chunkers take their
fixed-size fallback path. -/
def spaces200 : Str := List.replicate 200 ' '

theorem defaultChunkBySize_stuck :
    ∀ fuel, defaultChunkBySizeF ⟨100, 99⟩ spaces200 fuel 99 = none := by
  intro fuel
  induction fuel with
  | zero => rfl
  | succ f ih =>
    rw [defaultChunkBySizeF]
    rw [if_pos (by decide : (99 : Nat) < spaces200.length)]
    dsimp only
    rw [if_pos (by decide : 99 + 100 < spaces200.length)]
    rw [show pyRFindSpace spaces200 99 (99 + 100) = some 198 from by decide]
    dsimp only
    rw [if_pos (by decide : (198 : Nat) > 99)]
    rw [if_neg (by decide : ¬ (198 : Nat) ≤ 99)]
    rw [show (198 : Nat) - 99 = 99 from by decide, ih]
    rfl

theorem jaCharFallback_stuck :
    ∀ fuel s, s < 200 →
      jaCharFallbackF ⟨100, 99⟩ spaces200 fuel s = none := by
  intro fuel
  induction fuel with
  | zero => intro s _; rfl
  | succ f ih =>
    intro s hs
    rw [jaCharFallbackF]
    have hlen : spaces200.length = 200 := by decide
    rw [if_pos (by rw [hlen]; exact hs)]
    dsimp only
    rw [hlen]
    have hmin : 100 ≤ min (s + 100) 200 := by omega
    rw [if_neg (by omega : ¬ min (s + 100) 200 ≤ 99)]
    rw [ih (min (s + 100) 200 - 99) (by omega)]
    rfl

/-- C3 evaluated at a failing input: with the valid configuration
`chunk_size = 100`, `chunk_overlap = 99` (so `0 ≤ overlap < size`) and a
200-space input, `chunk_text` of the sentence-boundary chunker and of the
morphology-aware chunker without backend both fail to terminate: the
fixed-size fallback loop revisits the same `start` forever, so no amount
of fuel produces a result. -/
theorem c3_chunk_text_divergence :
    ∀ fuel : Nat,
      defaultChunkTextF ⟨100, 99⟩ fuel spaces200 = none ∧
      jaChunkTextF ⟨false, fun _ => []⟩ ⟨100, 99⟩ fuel spaces200 = none := by
  intro fuel
  constructor
  · rw [defaultChunkTextF]
    rw [if_neg (by decide : ¬ spaces200 = ([] : Str))]
    rw [if_pos (by decide : defaultSplitSentences spaces200 = [])]
    cases fuel with
    | zero => rfl
    | succ f =>
      rw [defaultChunkBySizeF]
      rw [if_pos (by decide : (0 : Nat) < spaces200.length)]
      dsimp only
      rw [if_pos (by decide : 0 + 100 < spaces200.length)]
      rw [show pyRFindSpace spaces200 0 (0 + 100) = some 99 from by decide]
      dsimp only
      rw [if_pos (by decide : (99 : Nat) > 0)]
      rw [if_pos (by decide : (99 : Nat) ≤ 99)]
      rw [defaultChunkBySize_stuck f]
      rfl
  · rw [jaChunkTextF]
    rw [if_neg (by decide : ¬ spaces200 = ([] : Str))]
    rw [if_pos (by decide : jaSplitSentences spaces200 = [])]
    rw [if_neg (by decide : ¬ (MorphEnv.mk false (fun _ => [])).fugashi = true)]
    exact jaCharFallback_stuck fuel 0 (by omega)

/-- Normalizer configured with Japanese as the default language. -/
def c9cfg : NormCfg :=
  { detect_language := false, default_language := .japanese,
    min_text_length := 1, langdetectAvailable := false,
    detector := fun _ => .failed }

/-- A 100-character element whose detected per-element language equals
the configured default (Japanese). -/
def c9elemJa : NormalizedElement :=
  { id := 0, element_type := .narrativeText,
    text := List.replicate 100 'あ', language := .japanese,
    page_number := none, position := 0, parent_id := none,
    heading_level := none }

/-- A 5-character English element. -/
def c9elemEn : NormalizedElement :=
  { id := 1, element_type := .narrativeText, text := "hello".toList,
    language := .english, page_number := none, position := 1,
    parent_id := none, heading_level := none }

/-- C9 counterexample: with `default_language = ja`, a 100-character
Japanese element and a 5-character English element, the code returns
Japanese (it counts every language other than `unknown`), while the
claim's reading — count only languages other than the configured
default — would return English. -/
theorem c9_default_language_still_counted :
    detectDocumentLanguage c9cfg [c9elemJa, c9elemEn] = Language.japanese ∧
    detectDocumentLanguageClaimed c9cfg [c9elemJa, c9elemEn] =
      Language.english := by decide

/-- Cumulative character count of the elements carrying language `l`. -/
def langScore (l : Language) (elements : List NormalizedElement) : Nat :=
  ((elements.filter (fun e => e.language = l)).map
    (fun e => e.text.length)).sum

theorem langScore_append (l : Language) (es : List NormalizedElement)
    (e : NormalizedElement) :
    langScore l (es ++ [e]) =
      langScore l es + (if e.language = l then e.text.length else 0) := by
  unfold langScore
  rw [List.filter_append, List.map_append, List.sum_append]
  by_cases h : e.language = l
  · simp [h]
  · simp [h]

theorem firstMaxByScore_spec :
    ∀ (rest : List (Language × Nat)) (s : Language × Nat),
      (firstMaxByScore s rest = s ∨ firstMaxByScore s rest ∈ rest) ∧
      s.2 ≤ (firstMaxByScore s rest).2 ∧
      ∀ x ∈ rest, x.2 ≤ (firstMaxByScore s rest).2 := by
  intro rest
  induction rest with
  | nil =>
    intro s
    exact ⟨Or.inl rfl, le_refl _, by intro x hx; cases hx⟩
  | cons y ys ih =>
    intro s
    have hstep : firstMaxByScore s (y :: ys) =
        firstMaxByScore (if y.2 > s.2 then y else s) ys := rfl
    obtain ⟨hmem, hs, hall⟩ := ih (if y.2 > s.2 then y else s)
    have hsle : s.2 ≤ (if y.2 > s.2 then y else s).2 := by
      by_cases hy : y.2 > s.2
      · rw [if_pos hy]; exact le_of_lt hy
      · rw [if_neg hy]
    have hyle : y.2 ≤ (if y.2 > s.2 then y else s).2 := by
      by_cases hy : y.2 > s.2
      · rw [if_pos hy]
      · rw [if_neg hy]; exact le_of_not_lt hy
    refine ⟨?_, ?_, ?_⟩
    · rw [hstep]
      rcases hmem with heq | hmem2
      · rw [heq]
        by_cases hy : y.2 > s.2
        · rw [if_pos hy]; exact Or.inr (List.mem_cons_self y ys)
        · rw [if_neg hy]; exact Or.inl rfl
      · exact Or.inr (List.mem_cons_of_mem y hmem2)
    · rw [hstep]; exact le_trans hsle hs
    · intro x hx
      rw [hstep]
      rcases List.mem_cons.mp hx with rfl | hx2
      · exact le_trans hyle hs
      · exact hall x hx2

theorem bumpScore_cases (m : List (Language × Nat)) (l : Language) (n : Nat) :
    (m.any (fun p => p.1 = l) = true ∧
      bumpScore m l n = m.map (fun p => if p.1 = l then (p.1, p.2 + n) else p)) ∨
    (m.any (fun p => p.1 = l) = false ∧ bumpScore m l n = m ++ [(l, n)]) := by
  unfold bumpScore
  by_cases h : m.any (fun p => p.1 = l) = true
  · exact Or.inl ⟨h, by rw [if_pos h]⟩
  · refine Or.inr ⟨Bool.eq_false_iff.mpr h, ?_⟩
    rw [if_neg h]

theorem langScores_spec :
    ∀ es : List NormalizedElement,
      (∀ p ∈ langScores es, p.1 ≠ Language.unknown ∧ p.2 = langScore p.1 es) ∧
      (∀ l, l ≠ Language.unknown → (∀ p ∈ langScores es, p.1 ≠ l) →
        langScore l es = 0) ∧
      (langScores es = [] ↔ ∀ e ∈ es, e.language = Language.unknown) := by
  intro es
  induction es using List.reverseRecOn with
  | nil =>
    refine ⟨?_, ?_, ?_⟩
    · intro p hp; simp [langScores] at hp
    · intro l _ _; rfl
    · simp [langScores]
  | append_singleton es e ih =>
    obtain ⟨iha, ihb, ihc⟩ := ih
    have hfold : langScores (es ++ [e]) =
        (if e.language ≠ Language.unknown then
          bumpScore (langScores es) e.language e.text.length
         else langScores es) := by
      unfold langScores
      rw [List.foldl_append]
      rfl
    by_cases he : e.language = Language.unknown
    · rw [if_neg (by simp [he])] at hfold
      refine ⟨?_, ?_, ?_⟩
      · intro p hp
        rw [hfold] at hp
        obtain ⟨hne, hval⟩ := iha p hp
        refine ⟨hne, ?_⟩
        rw [langScore_append, if_neg (by rw [he]; exact fun h => hne h.symm)]
        simpa using hval
      · intro l hl hkeys
        rw [hfold] at hkeys
        rw [langScore_append, if_neg (by rw [he]; exact fun h => hl h.symm)]
        simpa using ihb l hl hkeys
      · rw [hfold, ihc]
        constructor
        · intro hall x hx
          rcases List.mem_append.mp hx with hx2 | hx2
          · exact hall x hx2
          · rcases List.mem_singleton.mp hx2 with rfl; exact he
        · intro hall x hx
          exact hall x (List.mem_append.mpr (Or.inl hx))
    · rw [if_pos (by simpa using he)] at hfold
      rcases bumpScore_cases (langScores es) e.language e.text.length with
        ⟨hany, hbs⟩ | ⟨hany, hbs⟩
      · -- the language already has an entry: bump it in place
        rw [hbs] at hfold
        have hkeys_preserved : ∀ p, p ∈ langScores (es ++ [e]) →
            ∃ q ∈ langScores es, p.1 = q.1 ∧
              p.2 = q.2 + (if q.1 = e.language then e.text.length else 0) := by
          intro p hp
          rw [hfold] at hp
          rcases List.mem_map.mp hp with ⟨q, hq, hpq⟩
          by_cases hql : q.1 = e.language
          · rw [if_pos hql] at hpq
            exact ⟨q, hq, by rw [← hpq], by rw [← hpq, if_pos hql]⟩
          · rw [if_neg hql] at hpq
            refine ⟨q, hq, by rw [← hpq], ?_⟩
            rw [← hpq, if_neg hql]
            exact (Nat.add_zero q.2).symm
        refine ⟨?_, ?_, ?_⟩
        · intro p hp
          obtain ⟨q, hq, hkey, hval⟩ := hkeys_preserved p hp
          obtain ⟨hqne, hqval⟩ := iha q hq
          refine ⟨by rw [hkey]; exact hqne, ?_⟩
          rw [hval, hqval, langScore_append, hkey]
          by_cases hql : q.1 = e.language
          · rw [if_pos hql, if_pos hql.symm]
          · rw [if_neg hql, if_neg (fun h => hql h.symm)]
        · intro l hl hkeys
          have hkeys2 : ∀ q ∈ langScores es, q.1 ≠ l := by
            intro q hq
            have : (if q.1 = e.language then (q.1, q.2 + e.text.length)
                else q) ∈ langScores (es ++ [e]) := by
              rw [hfold]
              exact List.mem_map.mpr ⟨q, hq, rfl⟩
            have hkey := hkeys _ this
            by_cases hql : q.1 = e.language
            · rw [if_pos hql] at hkey; exact hkey
            · rw [if_neg hql] at hkey; exact hkey
          have hLnotl : e.language ≠ l := by
            simp only [List.any_eq_true, decide_eq_true_eq] at hany
            obtain ⟨q0, hq0, hq0key⟩ := hany
            intro h
            exact hkeys2 q0 hq0 (by rw [hq0key, h])
          rw [langScore_append, if_neg hLnotl]
          simpa using ihb l hl hkeys2
        · constructor
          · intro hnil
            exfalso
            simp only [List.any_eq_true, decide_eq_true_eq] at hany
            obtain ⟨q0, hq0, _⟩ := hany
            rw [hfold] at hnil
            rw [List.map_eq_nil_iff] at hnil
            rw [hnil] at hq0
            cases hq0
          · intro hall
            exfalso
            exact he (hall e (List.mem_append.mpr (Or.inr (List.mem_singleton.mpr rfl))))
      · -- the language is new: append a fresh entry
        rw [hbs] at hfold
        have hnokey : ∀ q ∈ langScores es, q.1 ≠ e.language := by
          intro q hq
          simp only [List.any_eq_false, decide_eq_true_eq] at hany
          exact hany q hq
        refine ⟨?_, ?_, ?_⟩
        · intro p hp
          rw [hfold] at hp
          rcases List.mem_append.mp hp with hp2 | hp2
          · obtain ⟨hpne, hpval⟩ := iha p hp2
            refine ⟨hpne, ?_⟩
            rw [langScore_append, if_neg (fun h => hnokey p hp2 h.symm)]
            simpa using hpval
          · rcases List.mem_singleton.mp hp2 with rfl
            refine ⟨he, ?_⟩
            have hzero : langScore e.language es = 0 :=
              ihb e.language he hnokey
            rw [langScore_append, if_pos rfl, hzero, Nat.zero_add]
        · intro l hl hkeys
          have hmemL : (e.language, e.text.length) ∈ langScores (es ++ [e]) := by
            rw [hfold]
            exact List.mem_append_right _ (List.mem_singleton.mpr rfl)
          have hLnotl : e.language ≠ l := hkeys _ hmemL
          have hkeys2 : ∀ q ∈ langScores es, q.1 ≠ l := by
            intro q hq
            refine hkeys q ?_
            rw [hfold]
            exact List.mem_append_left _ hq
          rw [langScore_append, if_neg hLnotl]
          simpa using ihb l hl hkeys2
        · constructor
          · intro hnil
            rw [hfold] at hnil
            exact absurd hnil (by simp)
          · intro hall
            exact absurd
              (hall e (List.mem_append_right _ (List.mem_singleton.mpr rfl))) he

/-- C9 (amended): `detect_document_language` returns a language with the
greatest cumulative character count among the elements whose language is
known in the sense of being different from `Language.unknown` — not, as
claimed, different from the configured default language; when the element
list is empty or no element has a known language, it returns the
configured default. -/
theorem c9_detect_language_max_known :
    ∀ (cfg : NormCfg) (elements : List NormalizedElement),
      ((∀ e ∈ elements, e.language = Language.unknown) →
        detectDocumentLanguage cfg elements = cfg.default_language) ∧
      (∀ e0 ∈ elements, e0.language ≠ Language.unknown →
        detectDocumentLanguage cfg elements ≠ Language.unknown ∧
        ∀ l, l ≠ Language.unknown →
          langScore l elements ≤
            langScore (detectDocumentLanguage cfg elements) elements) := by
  intro cfg elements
  obtain ⟨ha, hb, hc⟩ := langScores_spec elements
  constructor
  · intro hall
    unfold detectDocumentLanguage
    by_cases hel : elements = []
    · rw [if_pos hel]
    · rw [if_neg hel, hc.mpr hall]
  · intro e0 he0 hknown
    have hne : ¬ langScores elements = [] := by
      intro h
      exact hknown (hc.mp h e0 he0)
    have hel : elements ≠ [] := by rintro rfl; cases he0
    unfold detectDocumentLanguage
    rw [if_neg hel]
    rcases hsc : langScores elements with _ | ⟨s, rest⟩
    · exact absurd hsc hne
    · obtain ⟨hmem, _, hall⟩ := firstMaxByScore_spec rest s
      have hmem2 : firstMaxByScore s rest ∈ langScores elements := by
        rw [hsc]
        rcases hmem with heq | hm
        · rw [heq]; exact List.mem_cons_self s rest
        · exact List.mem_cons_of_mem s hm
      obtain ⟨hresne, hresval⟩ := ha _ hmem2
      refine ⟨hresne, ?_⟩
      intro l hl
      by_cases hkey : ∀ p ∈ langScores elements, p.1 ≠ l
      · rw [hb l hl hkey]
        exact Nat.zero_le _
      · push_neg at hkey
        obtain ⟨p, hp, hpl⟩ := hkey
        obtain ⟨hpne, hpval⟩ := ha p hp
        have hple : p.2 ≤ (firstMaxByScore s rest).2 := by
          rw [hsc] at hp
          rcases List.mem_cons.mp hp with heq | hp2
          · rw [heq]
            exact (firstMaxByScore_spec rest s).2.1
          · exact hall p hp2
        rw [← hpl, ← hpval, ← hresval]
        exact hple

/-- C9 witness: the amended theorem applied to a concrete one-element
list with a known (English) element. -/
theorem c9_detect_language_max_known_witness :
    detectDocumentLanguage c9cfg [c9elemEn] ≠ Language.unknown ∧
    langScore Language.japanese [c9elemEn] ≤
      langScore (detectDocumentLanguage c9cfg [c9elemEn]) [c9elemEn] := by
  have h := (c9_detect_language_max_known c9cfg [c9elemEn]).2 c9elemEn
    (List.mem_singleton.mpr rfl) (by decide)
  exact ⟨h.1, h.2 Language.japanese (by decide)⟩

/-- Normalizer used by the importer fixtures (no detection backend). -/
def c1NormCfg : NormCfg :=
  { detect_language := true, default_language := .english,
    min_text_length := 1, langdetectAvailable := false,
    detector := fun _ => .failed }

/-- An importer with the default-like configuration and an empty chunker
cache, as built by `DocumentImporter.__init__`. -/
def c1Importer : Importer :=
  { normCfg := c1NormCfg
    config := { chunk_size := 1000, chunk_overlap := 100,
                auto_detect_language := true, default_language := .english,
                build_correlation_graph := true,
                semantic_similarity_threshold := 7/10 }
    chunkers := [] }

/-- Morphological backend absent. -/
def c1Env : MorphEnv := ⟨false, fun _ => []⟩

/-- An existing regular file with the unsupported extension `.xyz`. -/
def c1InputXyz : FileInput :=
  { fileExists := true, isFile := true, size := 10,
    suffix := ".xyz".toList, unstructuredAvailable := true,
    parseOutcome := .ok [] }

/-- A missing file with a supported extension. -/
def c1InputMissing : FileInput :=
  { fileExists := false, isFile := true, size := 0,
    suffix := ".txt".toList, unstructuredAvailable := true,
    parseOutcome := .ok [] }

/-- C1 counterexample: for an existing file with an unsupported
extension, `import_document` does **not** propagate
`UnsupportedFormatError` — the error is raised inside the `try` block by
`parser.parse` and captured into `result.errors` with
`status = "error"`. -/
theorem c1_unsupported_extension_captured :
    raisedException (importDocumentF c1Env c1Importer c1InputXyz none 0) =
      false ∧
    returnedStatus (importDocumentF c1Env c1Importer c1InputXyz none 0) =
      some "error".toList ∧
    returnedErrors (importDocumentF c1Env c1Importer c1InputXyz none 0) =
      some ["Unsupported format".toList] := by
  exact ⟨rfl, rfl, rfl⟩

/-- C1 (amended): a missing file propagates `FileNotFoundError` from
`import_document` (raised by `file_path.stat()` in
`_create_document_metadata`, before the `try` block); every failure of
the parse stage on an existing file — not-a-file, unsupported extension,
missing backend, parse error — is captured into `result.errors` with
`status = "error"` and does not propagate; and on an existing file
`import_document` never lets an exception escape. -/
theorem c1_exception_boundary :
    ∀ (env : MorphEnv) (imp : Importer) (input : FileInput)
      (override : Option ImportConfig) (fuel : Nat),
      (input.fileExists = false →
        importDocumentF env imp input override fuel =
          some (.error PyErr.fileNotFound)) ∧
      (input.fileExists = true →
        (∀ e, parserParse input = .error e →
          raisedException (importDocumentF env imp input override fuel) =
            false ∧
          returnedStatus (importDocumentF env imp input override fuel) =
            some "error".toList ∧
          returnedErrors (importDocumentF env imp input override fuel) =
            some [pyErrStr e]) ∧
        raisedException (importDocumentF env imp input override fuel) =
          false) := by
  intro env imp input override fuel
  refine ⟨?_, ?_⟩
  · intro h
    unfold importDocumentF
    rw [if_pos (by simp [h])]
  · intro h
    have hcond : ¬ (¬ input.fileExists = true) := by simp [h]
    refine ⟨?_, ?_⟩
    · intro e he
      unfold importDocumentF
      rw [if_neg hcond, he]
      exact ⟨rfl, rfl, rfl⟩
    · unfold importDocumentF
      rw [if_neg hcond]
      rcases hp : parserParse input with e | raw
      · rfl
      · dsimp only
        split <;> rfl

/-- C1 witness: the amended theorem applied to a missing `.txt` file
(exception propagates) and to the existing `.xyz` file (error captured). -/
theorem c1_exception_boundary_witness :
    importDocumentF c1Env c1Importer c1InputMissing none 0 =
      some (.error PyErr.fileNotFound) ∧
    returnedStatus (importDocumentF c1Env c1Importer c1InputXyz none 0) =
      some "error".toList :=
  ⟨(c1_exception_boundary c1Env c1Importer c1InputMissing none 0).1 rfl,
   (((c1_exception_boundary c1Env c1Importer c1InputXyz none 0).2 rfl).1
      PyErr.unsupportedFormat rfl).2.1⟩

/-- Agreement of two import configurations on every field except the two
chunk-size fields. -/
def sameNonSizeFields (a b : ImportConfig) : Prop :=
  a.auto_detect_language = b.auto_detect_language ∧
  a.default_language = b.default_language ∧
  a.build_correlation_graph = b.build_correlation_graph ∧
  a.semantic_similarity_threshold = b.semantic_similarity_threshold

/-- C5: (1) two `import_document` runs on the same importer and input
whose per-call override configs differ only in `chunk_size` /
`chunk_overlap` produce identical results — the override's size fields
never reach the chunker, which is obtained from the per-language cache
seeded from the constructor-time `self.config`; (2) `_get_chunker`
returns a chunker carrying exactly `self.config`'s sizes and preserves
that cache invariant. -/
theorem c5_override_sizes_never_reach_chunker :
    (∀ (env : MorphEnv) (imp : Importer) (input : FileInput) (fuel : Nat)
       (ca cb : ImportConfig), sameNonSizeFields ca cb →
       importDocumentF env imp input (some ca) fuel =
         importDocumentF env imp input (some cb) fuel) ∧
    (∀ (imp : Importer) (language : Language),
       (∀ p ∈ imp.chunkers,
         p.2 = ChunkerCfg.mk imp.config.chunk_size imp.config.chunk_overlap) →
       (getChunker imp language).1 =
         ChunkerCfg.mk imp.config.chunk_size imp.config.chunk_overlap ∧
       (getChunker imp language).2.config = imp.config ∧
       ∀ p ∈ (getChunker imp language).2.chunkers,
         p.2 = ChunkerCfg.mk imp.config.chunk_size imp.config.chunk_overlap) := by
  constructor
  · intro env imp input fuel ca cb hsame
    obtain ⟨h1, h2, h3, h4⟩ := hsame
    unfold importDocumentF
    simp only [Option.getD_some]
    rw [h1, h2, h3, h4]
  · intro imp language hinv
    unfold getChunker
    rcases hf : imp.chunkers.find? (fun p => p.1 = language) with _ | p
    all_goals rw [hf]
    · refine ⟨rfl, rfl, ?_⟩
      intro p hp
      rcases List.mem_append.mp hp with hp2 | hp2
      · exact hinv p hp2
      · rcases List.mem_singleton.mp hp2 with rfl
        rfl
    · exact ⟨hinv p (List.mem_of_find?_eq_some hf), rfl, hinv⟩

/-- A well-formed raw narrative element for the witness input. -/
def c5RawElem : RawElement :=
  { category := some "NarrativeText".toList,
    text := "Hello world.".toList, page_number := none, parent_id := none }

/-- An existing `.txt` file that parses into one element. -/
def c5InputTxt : FileInput :=
  { fileExists := true, isFile := true, size := 12,
    suffix := ".txt".toList, unstructuredAvailable := true,
    parseOutcome := .ok [c5RawElem] }

/-- Override configs that differ only in `chunk_size` and
`chunk_overlap`. -/
def c5cfgA : ImportConfig :=
  { chunk_size := 1000, chunk_overlap := 100,
    auto_detect_language := true, default_language := .english,
    build_correlation_graph := true, semantic_similarity_threshold := 7/10 }

/-- Same as `c5cfgA` with halved sizes. -/
def c5cfgB : ImportConfig :=
  { c5cfgA with chunk_size := 500, chunk_overlap := 50 }

/-- C5 witness: the hyperproperty applied at a concrete run whose two
overrides differ only in the size fields. -/
theorem c5_override_sizes_never_reach_chunker_witness :
    importDocumentF c1Env c1Importer c5InputTxt (some c5cfgA) 3 =
      importDocumentF c1Env c1Importer c5InputTxt (some c5cfgB) 3 :=
  c5_override_sizes_never_reach_chunker.1 c1Env c1Importer c5InputTxt 3
    c5cfgA c5cfgB ⟨rfl, rfl, rfl, rfl⟩

/-- An element whose two sentences are separated by a newline; the
chunker rejoins them with a single space, so the chunk text does not
occur in the concatenation. -/
def c4elem : NormalizedElement :=
  { id := 0, element_type := .narrativeText, text := "A.\nB.".toList,
    language := .english, page_number := none, position := 0,
    parent_id := none, heading_level := none }

/-- C4 counterexample: for the element `"A.\nB."`, `chunk_elements`
produces the single chunk `"A. B."` with offsets `[0, 5)` (the forward
search fails and falls back to the previous position), but the substring
`[0, 5)` of the concatenation is `"A.\nB."` — not equal to the chunk
text, not even after stripping both sides. -/
theorem c4_roundtrip_counterexample :
    chunkElementsF (defaultChunkTextF ⟨100, 0⟩ 0) defaultCountTokens
        .english 0 [c4elem] =
      some [{ id := 0, text := "A. B.".toList, language := .english,
              source_elements := [0], document_id := 0, chunk_index := 0,
              start_char := 0, end_char := 5, token_count := 2 }] ∧
    pySlice (combineElementText [c4elem]).1 0 5 ≠ "A. B.".toList ∧
    pyStrip (pySlice (combineElementText [c4elem]).1 0 5) ≠
      pyStrip "A. B.".toList := by
  exact ⟨by decide, by decide, by decide⟩

theorem isPrefixOf_take :
    ∀ (needle l : Str), needle.isPrefixOf l = true →
      l.take needle.length = needle := by
  intro needle
  induction needle with
  | nil => intro l _; rfl
  | cons c cs ih =>
    intro l h
    cases l with
    | nil => cases h
    | cons d ds =>
      rw [List.isPrefixOf] at h
      rcases (Bool.and_eq_true _ _).mp h with ⟨hcd, htail⟩
      have : c = d := by
        have := of_decide_eq_true (by simpa using hcd)
        exact this.symm ▸ rfl
      subst this
      rw [List.length_cons, List.take_succ_cons, ih ds htail]

theorem pyFind_some_slice (hay needle : Str) (start v : Nat)
    (h : pyFind hay needle start = some v) :
    pySlice hay v (v + needle.length) = needle := by
  unfold pyFind at h
  have hpred := List.find?_some h
  rcases (Bool.and_eq_true _ _).mp hpred with ⟨_, hpre⟩
  unfold pySlice
  rw [List.drop_take]
  have : v + needle.length - v = needle.length := by omega
  rw [this]
  exact isPrefixOf_take needle (hay.drop v) hpre

theorem buildChunks_roundtrip_invariant (combined : Str)
    (positions : List (Nat × Nat × Nat)) (countTokens : Str → Nat)
    (language : Language) (docId : Nat) :
    ∀ (texts : List Str) (st : List TextChunk × Nat × Nat),
      (∀ c ∈ st.1,
        pySlice combined c.start_char c.end_char = c.text ∨
        pyFind combined c.text c.start_char = none) →
      ∀ c ∈ (texts.foldl
          (buildChunksStep combined positions countTokens language docId)
          st).1,
        pySlice combined c.start_char c.end_char = c.text ∨
        pyFind combined c.text c.start_char = none := by
  intro texts
  induction texts with
  | nil => intro st hst; exact hst
  | cons t ts ih =>
    intro st hst
    rw [List.foldl_cons]
    refine ih _ ?_
    intro c hc
    unfold buildChunksStep at hc
    dsimp only at hc
    rcases hfind : pyFind combined t st.2.2 with _ | v <;>
      rw [hfind] at hc <;> dsimp only at hc
    · rcases List.mem_append.mp hc with hc2 | hc2
      · exact hst c hc2
      · rcases List.mem_singleton.mp hc2 with rfl
        exact Or.inr hfind
    · rcases List.mem_append.mp hc with hc2 | hc2
      · exact hst c hc2
      · rcases List.mem_singleton.mp hc2 with rfl
        exact Or.inl (pyFind_some_slice combined t st.2.2 v hfind)

/-- C4 (amended): for every chunk produced by `chunk_elements`, either
the substring `[start_char, end_char)` of the concatenated element text
equals the chunk's text exactly, or the chunk's text does not occur in
the concatenation at or after `start_char` at all (the forward search
failed and the offsets are the loop's fallback position).  Equality "up
to whitespace trimming" does not hold in the fallback case. -/
theorem c4_offsets_roundtrip :
    ∀ (chunkText : Str → Option (List Str)) (countTokens : Str → Nat)
      (language : Language) (docId : Nat)
      (elements : List NormalizedElement) (chunks : List TextChunk),
      chunkElementsF chunkText countTokens language docId elements =
        some chunks →
      ∀ c ∈ chunks,
        pySlice (combineElementText elements).1 c.start_char c.end_char =
          c.text ∨
        pyFind (combineElementText elements).1 c.text c.start_char =
          none := by
  intro chunkText countTokens language docId elements chunks hchunks
  unfold chunkElementsF at hchunks
  by_cases hel : elements = []
  · rw [if_pos hel] at hchunks
    cases hchunks
    intro c hc
    cases hc
  · rw [if_neg hel] at hchunks
    dsimp only at hchunks
    rcases hct : chunkText (combineElementText elements).1 with _ | texts <;>
      rw [hct] at hchunks
    · simp at hchunks
    · simp only [Option.map_some'] at hchunks
      cases hchunks
      exact buildChunks_roundtrip_invariant _ _ _ _ _ texts ([], 0, 0)
        (by intro c hc; cases hc)

/-- A single-sentence element whose chunk text occurs verbatim, so the
forward search succeeds. -/
def c4elemGood : NormalizedElement :=
  { id := 0, element_type := .narrativeText, text := "Hello there.".toList,
    language := .english, page_number := none, position := 0,
    parent_id := none, heading_level := none }

/-- C4 witness: the amended round-trip applied to a concrete run where
the search succeeds and the offsets recover the chunk text exactly. -/
theorem c4_offsets_roundtrip_witness :
    pySlice (combineElementText [c4elemGood]).1 0 12 =
      "Hello there.".toList ∨
    pyFind (combineElementText [c4elemGood]).1 "Hello there.".toList 0 =
      none := by
  have h := c4_offsets_roundtrip (defaultChunkTextF ⟨100, 0⟩ 0)
    defaultCountTokens .english 0 [c4elemGood]
    [{ id := 0, text := "Hello there.".toList, language := .english,
       source_elements := [0], document_id := 0, chunk_index := 0,
       start_char := 0, end_char := 12, token_count := 2 }] (by decide)
  exact h _ (List.mem_singleton.mpr rfl)

/-- A string containing at least one non-whitespace character. -/
def hasNonWs (s : Str) : Bool := s.any (fun c => !pyIsSpace c)

theorem mem_dropWhile_of_not {p : Char → Bool} {c : Char} {l : Str}
    (hc : p c = false) (hmem : c ∈ l) : c ∈ l.dropWhile p := by
  have hsplit := List.takeWhile_append_dropWhile p l
  rcases List.mem_append.mp (hsplit ▸ hmem) with h | h
  · have := List.mem_takeWhile_imp h
    rw [this] at hc
    cases hc
  · exact h

theorem hasNonWs_iff_exists (s : Str) :
    hasNonWs s = true ↔ ∃ c ∈ s, pyIsSpace c = false := by
  unfold hasNonWs
  rw [List.any_eq_true]
  constructor
  · rintro ⟨c, hc, hb⟩
    exact ⟨c, hc, by simpa using hb⟩
  · rintro ⟨c, hc, hb⟩
    exact ⟨c, hc, by simpa using hb⟩

theorem pyRStrip_ne_nil_of_hasNonWs {s : Str} (h : hasNonWs s = true) :
    pyRStrip s ≠ [] ∧ hasNonWs (pyRStrip s) = true := by
  obtain ⟨c, hc, hb⟩ := (hasNonWs_iff_exists s).mp h
  have hcrev : c ∈ s.reverse := List.mem_reverse.mpr hc
  have hdw : c ∈ s.reverse.dropWhile pyIsSpace :=
    mem_dropWhile_of_not hb hcrev
  have hmem : c ∈ pyRStrip s := by
    unfold pyRStrip
    exact List.mem_reverse.mpr hdw
  exact ⟨List.ne_nil_of_mem hmem,
    (hasNonWs_iff_exists _).mpr ⟨c, hmem, hb⟩⟩

theorem pyLStrip_ne_nil_of_hasNonWs {s : Str} (h : hasNonWs s = true) :
    pyLStrip s ≠ [] ∧ hasNonWs (pyLStrip s) = true := by
  obtain ⟨c, hc, hb⟩ := (hasNonWs_iff_exists s).mp h
  have hmem : c ∈ pyLStrip s := mem_dropWhile_of_not hb hc
  exact ⟨List.ne_nil_of_mem hmem,
    (hasNonWs_iff_exists _).mpr ⟨c, hmem, hb⟩⟩

theorem pyStrip_ne_nil_of_hasNonWs {s : Str} (h : hasNonWs s = true) :
    pyStrip s ≠ [] ∧ hasNonWs (pyStrip s) = true := by
  have h1 := pyRStrip_ne_nil_of_hasNonWs h
  have h2 := pyLStrip_ne_nil_of_hasNonWs h1.2
  exact ⟨h2.1, h2.2⟩

theorem dropWhile_head_not {p : Char → Bool} :
    ∀ {l : Str} {c : Char} {rest : Str},
      l.dropWhile p = c :: rest → p c = false := by
  intro l
  induction l with
  | nil => intro c rest h; cases h
  | cons d ds ih =>
    intro c rest h
    rw [List.dropWhile_cons] at h
    by_cases hd : p d = true
    · rw [if_pos hd] at h
      exact ih h
    · rw [if_neg hd] at h
      cases h
      exact Bool.eq_false_iff.mpr hd

/-- The string is non-empty and its last character is not whitespace. -/
def lastNonWs (s : Str) : Prop :=
  ∃ c, s.getLast? = some c ∧ pyIsSpace c = false

theorem hasNonWs_of_ne_nil_pyStrip {t : Str} (h : pyStrip t ≠ []) :
    hasNonWs (pyStrip t) = true := by
  unfold pyStrip pyLStrip at *
  rcases hd : (pyRStrip t).dropWhile pyIsSpace with _ | ⟨c, rest⟩
  · exact absurd hd h
  · have := dropWhile_head_not hd
    exact (hasNonWs_iff_exists _).mpr ⟨c, List.mem_cons_self c rest, this⟩

theorem lastNonWs_pyRStrip {s : Str} (h : pyRStrip s ≠ []) :
    lastNonWs (pyRStrip s) := by
  unfold pyRStrip at *
  rcases hd : s.reverse.dropWhile pyIsSpace with _ | ⟨c, rest⟩
  · rw [hd] at h
    exact absurd rfl h
  · have hc := dropWhile_head_not hd
    refine ⟨c, ?_, hc⟩
    rw [← List.head?_reverse, List.reverse_reverse]
    rfl

theorem lastNonWs_append {a s : Str} (h : lastNonWs s) :
    lastNonWs (a ++ s) := by
  obtain ⟨c, hc, hb⟩ := h
  refine ⟨c, ?_, hb⟩
  rw [List.getLast?_append_of_ne_nil a (by rintro rfl; cases hc)]
  exact hc

theorem lastNonWs_drop {s : Str} (k : Nat) (h : lastNonWs s) :
    s.drop k = [] ∨ lastNonWs (s.drop k) := by
  by_cases hnil : s.drop k = []
  · exact Or.inl hnil
  · obtain ⟨c, hc, hb⟩ := h
    refine Or.inr ⟨c, ?_, hb⟩
    have hsplit : s.take k ++ s.drop k = s := List.take_append_drop k s
    rw [← hsplit] at hc
    rw [List.getLast?_append_of_ne_nil _ hnil] at hc
    exact hc

theorem lastNonWs_pyStrip_of_ne_nil {t : Str} (h : pyStrip t ≠ []) :
    lastNonWs (pyStrip t) := by
  unfold pyStrip at *
  have hr : pyRStrip t ≠ [] := by
    intro hnil
    rw [hnil] at h
    exact h rfl
  obtain ⟨c, hc, hb⟩ := lastNonWs_pyRStrip hr
  refine ⟨c, ?_, hb⟩
  unfold pyLStrip at *
  have hsplit := List.takeWhile_append_dropWhile pyIsSpace (pyRStrip t)
  rw [← hsplit] at hc
  rw [List.getLast?_append_of_ne_nil _ h] at hc
  exact hc

theorem pyStrip_ne_nil_of_lastNonWs {s : Str} (h : lastNonWs s) :
    pyStrip s ≠ [] := by
  obtain ⟨c, hc, hb⟩ := h
  have hmem : c ∈ s := List.mem_of_mem_getLast? hc
  exact (pyStrip_ne_nil_of_hasNonWs
    ((hasNonWs_iff_exists s).mpr ⟨c, hmem, hb⟩)).1

theorem pySplitWsAux_ne_nil :
    ∀ (s : Str) (cur : Str),
      (hasNonWs s = true ∨ cur ≠ []) → pySplitWsAux cur s ≠ [] := by
  intro s
  induction s with
  | nil =>
    intro cur h
    rcases h with h | h
    · cases h
    · unfold pySplitWsAux
      rw [if_neg h]
      exact List.cons_ne_nil _ _
  | cons c cs ih =>
    intro cur h
    unfold pySplitWsAux
    by_cases hws : pyIsSpace c = true
    · rw [if_pos hws]
      by_cases hcur : cur = []
      · rw [if_pos hcur]
        refine ih [] (Or.inl ?_)
        rcases h with h | h
        · unfold hasNonWs at h ⊢
          rw [List.any_cons] at h
          rcases Bool.or_eq_true_iff.mp h with h2 | h2
          · rw [hws] at h2; cases h2
          · exact h2
        · exact absurd hcur h
      · rw [if_neg hcur]
        exact List.cons_ne_nil _ _
    · rw [if_neg hws]
      exact ih (c :: cur) (Or.inr (List.cons_ne_nil c cur))

theorem defaultCountTokens_pos {t : Str} (h : hasNonWs t = true) :
    defaultCountTokens t ≠ 0 := by
  have hne : t ≠ [] := by
    rintro rfl
    cases h
  unfold defaultCountTokens
  rw [if_neg hne]
  intro hz
  have := pySplitWsAux_ne_nil t [] (Or.inl h)
  unfold pySplitWs at *
  exact this (List.length_eq_zero.mp hz)

theorem reSplitAux_hasNonWs :
    ∀ (rest : Str) (acc : List Str) (cur : Str) (p i : Bool),
      (i = true → cur = []) →
      (hasNonWs rest = true ∨ hasNonWs cur = true ∨
        ∃ s ∈ acc, hasNonWs s = true) →
      ∃ s ∈ reSplitAux acc cur p i rest, hasNonWs s = true := by
  intro rest
  induction rest with
  | nil =>
    intro acc cur p i _ h
    unfold reSplitAux
    rcases h with h | h | ⟨s, hs, hsw⟩
    · cases h
    · refine ⟨cur.reverse, List.mem_append_right _ (List.mem_singleton.mpr rfl), ?_⟩
      unfold hasNonWs at h ⊢
      rwa [List.any_reverse]
    · exact ⟨s, List.mem_append_left _ hs, hsw⟩
  | cons c cs ih =>
    intro acc cur p i hcond h
    unfold reSplitAux
    by_cases hi : i = true
    · rw [if_pos hi]
      have hcur := hcond hi
      by_cases hws : pyIsSpace c = true
      · rw [if_pos hws]
        refine ih acc cur p true (fun _ => hcur) ?_
        rcases h with h | h | h
        · unfold hasNonWs at h
          rw [List.any_cons] at h
          rcases Bool.or_eq_true_iff.mp h with h2 | h2
          · rw [hws] at h2; cases h2
          · exact Or.inl h2
        · exact Or.inr (Or.inl h)
        · exact Or.inr (Or.inr h)
      · rw [if_neg hws]
        refine ih acc [c] (isSentEnd c) false (by intro hh; cases hh) ?_
        rcases h with h | h | h
        · unfold hasNonWs at h
          rw [List.any_cons] at h
          rcases Bool.or_eq_true_iff.mp h with h2 | h2
          · refine Or.inr (Or.inl ?_)
            unfold hasNonWs
            rw [List.any_cons, h2]
            rfl
          · exact Or.inl h2
        · rw [hcur] at h; cases h
        · exact Or.inr (Or.inr h)
    · rw [if_neg hi]
      by_cases hsep : (pyIsSpace c && p) = true
      · rw [if_pos hsep]
        refine ih (acc ++ [cur.reverse]) [] false true (fun _ => rfl) ?_
        rcases h with h | h | ⟨s, hs, hsw⟩
        · unfold hasNonWs at h
          rw [List.any_cons] at h
          rcases Bool.or_eq_true_iff.mp h with h2 | h2
          · rcases (Bool.and_eq_true _ _).mp hsep with ⟨hws, _⟩
            rw [hws] at h2; cases h2
          · exact Or.inl h2
        · refine Or.inr (Or.inr ⟨cur.reverse,
            List.mem_append_right _ (List.mem_singleton.mpr rfl), ?_⟩)
          unfold hasNonWs at h ⊢
          rwa [List.any_reverse]
        · exact Or.inr (Or.inr ⟨s, List.mem_append_left _ hs, hsw⟩)
      · rw [if_neg hsep]
        refine ih acc (c :: cur) (isSentEnd c) false (by intro hh; cases hh) ?_
        rcases h with h | h | h
        · unfold hasNonWs at h ⊢
          rw [List.any_cons] at h
          rcases Bool.or_eq_true_iff.mp h with h2 | h2
          · refine Or.inr (Or.inl ?_)
            rw [List.any_cons, h2]
            rfl
          · exact Or.inl h2
        · refine Or.inr (Or.inl ?_)
          unfold hasNonWs at h ⊢
          rw [List.any_cons, h]
          exact Bool.or_true _
        · exact Or.inr (Or.inr h)

theorem defaultSplitSentences_mem {text s : Str}
    (h : s ∈ defaultSplitSentences text) :
    s ≠ [] ∧ hasNonWs s = true ∧ lastNonWs s := by
  unfold defaultSplitSentences at h
  by_cases ht : text = []
  · rw [if_pos ht] at h
    cases h
  · rw [if_neg ht] at h
    rcases List.mem_filter.mp h with ⟨hmap, hne⟩
    have hne2 : s ≠ [] := by simpa using hne
    rcases List.mem_map.mp hmap with ⟨seg, _, rfl⟩
    exact ⟨hne2, hasNonWs_of_ne_nil_pyStrip hne2,
      lastNonWs_pyStrip_of_ne_nil hne2⟩

theorem defaultSplitSentences_ne_nil {text : Str}
    (h : hasNonWs text = true) : defaultSplitSentences text ≠ [] := by
  have ht : text ≠ [] := by rintro rfl; cases h
  obtain ⟨seg, hseg, hsegw⟩ :=
    reSplitAux_hasNonWs text [] [] false false (fun hh => rfl) (Or.inl h)
  have hstrip := pyStrip_ne_nil_of_hasNonWs hsegw
  have hmem : pyStrip seg ∈ defaultSplitSentences text := by
    unfold defaultSplitSentences
    rw [if_neg ht]
    refine List.mem_filter.mpr ⟨List.mem_map.mpr ⟨seg, hseg, rfl⟩, ?_⟩
    simpa using hstrip.1
  exact List.ne_nil_of_mem hmem

theorem joinSep_hasNonWs (sep : Str) :
    ∀ (parts : List Str) (s : Str), s ∈ parts → hasNonWs s = true →
      hasNonWs (joinSep sep parts) = true := by
  intro parts
  induction parts with
  | nil => intro s hs; cases hs
  | cons a rest ih =>
    intro s hs hsw
    cases rest with
    | nil =>
      rcases List.mem_singleton.mp hs with rfl
      exact hsw
    | cons b brest =>
      rw [joinSep]
      unfold hasNonWs at *
      rw [List.any_append, List.any_append]
      rcases List.mem_cons.mp hs with rfl | hs2
      · rw [hsw]
        rfl
      · rw [ih s hs2 hsw]
        simp

theorem overlapAux_subset (maxLen : Nat) :
    ∀ (rs acc : List Str) (n : Nat) (x : Str),
      x ∈ (overlapAux maxLen acc n rs).1 → x ∈ acc ∨ x ∈ rs := by
  intro rs
  induction rs with
  | nil =>
    intro acc n x hx
    exact Or.inl hx
  | cons s rest ih =>
    intro acc n x hx
    unfold overlapAux at hx
    by_cases hfit : n + s.length ≤ maxLen
    · rw [if_pos hfit] at hx
      rcases ih (s :: acc) (n + s.length) x hx with h | h
      · rcases List.mem_cons.mp h with rfl | h2
        · exact Or.inr (List.mem_cons_self _ _)
        · exact Or.inl h2
      · exact Or.inr (List.mem_cons_of_mem _ h)
    · rw [if_neg hfit] at hx
      exact Or.inl hx

theorem defStep_inv (cfg : ChunkerCfg) (st : DefState) (s : Str)
    (hchunks : ∀ t ∈ st.chunks, hasNonWs t = true)
    (hcur : ∀ u ∈ st.cur, hasNonWs u = true)
    (hs : hasNonWs s = true) :
    (∀ t ∈ (defStep cfg st s).chunks, hasNonWs t = true) ∧
    (∀ u ∈ (defStep cfg st s).cur, hasNonWs u = true) := by
  unfold defStep
  dsimp only
  by_cases hover : st.curLen + s.length > cfg.chunk_size
  · rw [if_pos hover]
    by_cases hne : st.cur ≠ []
    · rw [if_pos hne]
      have hjoin : hasNonWs (joinSep [' '] st.cur) = true := by
        rcases hcu : st.cur with _ | ⟨u, us⟩
        · exact absurd hcu hne
        · exact joinSep_hasNonWs [' '] (u :: us) u (List.mem_cons_self _ _)
            (hcur u (by rw [hcu]; exact List.mem_cons_self _ _))
      have hflush : ∀ t ∈ st.chunks ++ [joinSep [' '] st.cur],
          hasNonWs t = true := by
        intro t ht
        rcases List.mem_append.mp ht with h | h
        · exact hchunks t h
        · rcases List.mem_singleton.mp h with rfl
          exact hjoin
      by_cases hov : cfg.chunk_overlap > 0
      · rw [if_pos hov]
        dsimp only
        refine ⟨hflush, ?_⟩
        intro u hu
        rcases List.mem_append.mp hu with h | h
        · rcases overlapAux_subset cfg.chunk_overlap st.cur.reverse [] 0 u h
            with h2 | h2
          · cases h2
          · exact hcur u (List.mem_reverse.mp h2)
        · rcases List.mem_singleton.mp h with rfl
          exact hs
      · rw [if_neg hov]
        dsimp only
        refine ⟨hflush, ?_⟩
        intro u hu
        rcases List.mem_append.mp hu with h | h
        · cases h
        · rcases List.mem_singleton.mp h with rfl
          exact hs
    · rw [if_neg hne]
      refine ⟨hchunks, ?_⟩
      intro u hu
      rcases List.mem_append.mp hu with h | h
      · exact hcur u h
      · rcases List.mem_singleton.mp h with rfl
        exact hs
  · rw [if_neg hover]
    refine ⟨hchunks, ?_⟩
    intro u hu
    rcases List.mem_append.mp hu with h | h
    · exact hcur u h
    · rcases List.mem_singleton.mp h with rfl
      exact hs

theorem defaultSentenceChunks_hasNonWs (cfg : ChunkerCfg)
    (sentences : List Str)
    (hsent : ∀ s ∈ sentences, hasNonWs s = true) :
    ∀ t ∈ defaultSentenceChunks cfg sentences, hasNonWs t = true := by
  have hfold :
      ∀ (ss : List Str) (st : DefState),
        (∀ s ∈ ss, hasNonWs s = true) →
        (∀ t ∈ st.chunks, hasNonWs t = true) →
        (∀ u ∈ st.cur, hasNonWs u = true) →
        (∀ t ∈ (ss.foldl (defStep cfg) st).chunks, hasNonWs t = true) ∧
        (∀ u ∈ (ss.foldl (defStep cfg) st).cur, hasNonWs u = true) := by
    intro ss
    induction ss with
    | nil => intro st _ h1 h2; exact ⟨h1, h2⟩
    | cons s rest ih =>
      intro st hss h1 h2
      rw [List.foldl_cons]
      have hstep := defStep_inv cfg st s h1 h2
        (hss s (List.mem_cons_self _ _))
      exact ih (defStep cfg st s)
        (fun u hu => hss u (List.mem_cons_of_mem _ hu)) hstep.1 hstep.2
  intro t ht
  unfold defaultSentenceChunks at ht
  obtain ⟨h1, h2⟩ := hfold sentences ⟨[], [], 0⟩ hsent
    (by intro t ht2; cases ht2) (by intro u hu; cases hu)
  dsimp only at ht
  rcases List.mem_append.mp ht with h | h
  · exact h1 t h
  · by_cases hne : (sentences.foldl (defStep cfg) ⟨[], [], 0⟩).cur ≠ []
    · rw [if_pos hne] at h
      rcases List.mem_singleton.mp h with rfl
      rcases hcu : (sentences.foldl (defStep cfg) ⟨[], [], 0⟩).cur
        with _ | ⟨u, us⟩
      · exact absurd hcu hne
      · rw [hcu] at h2
        exact joinSep_hasNonWs [' '] (u :: us) u (List.mem_cons_self _ _)
          (h2 u (List.mem_cons_self _ _))
    · rw [if_neg hne] at h
      cases h

theorem defaultChunkTextF_hasNonWs (cfg : ChunkerCfg) (fuel : Nat)
    (raw : Str) (texts : List Str)
    (h : defaultChunkTextF cfg fuel (pyRStrip raw) = some texts) :
    ∀ t ∈ texts, hasNonWs t = true := by
  unfold defaultChunkTextF at h
  by_cases ht : pyRStrip raw = []
  · rw [if_pos ht] at h
    cases h
    intro t ht2
    cases ht2
  · rw [if_neg ht] at h
    have hw : hasNonWs (pyRStrip raw) = true := by
      obtain ⟨c, hc, hb⟩ := lastNonWs_pyRStrip ht
      exact (hasNonWs_iff_exists _).mpr ⟨c, List.mem_of_mem_getLast? hc, hb⟩
    rw [if_neg (defaultSplitSentences_ne_nil hw)] at h
    cases h
    exact defaultSentenceChunks_hasNonWs cfg _
      (fun s hs => (defaultSplitSentences_mem hs).2.1)

theorem buildChunks_token_nonzero (combined : Str)
    (positions : List (Nat × Nat × Nat)) (countTokens : Str → Nat)
    (language : Language) (docId : Nat) :
    ∀ (texts : List Str) (st : List TextChunk × Nat × Nat),
      (∀ t ∈ texts, countTokens t ≠ 0) →
      (∀ c ∈ st.1, c.token_count ≠ 0) →
      ∀ c ∈ (texts.foldl
          (buildChunksStep combined positions countTokens language docId)
          st).1,
        c.token_count ≠ 0 := by
  intro texts
  induction texts with
  | nil => intro st _ hst; exact hst
  | cons t ts ih =>
    intro st hts hst
    rw [List.foldl_cons]
    refine ih _ (fun u hu => hts u (List.mem_cons_of_mem _ hu)) ?_
    intro c hc
    unfold buildChunksStep at hc
    dsimp only at hc
    rcases List.mem_append.mp hc with hc2 | hc2
    · exact hst c hc2
    · rcases List.mem_singleton.mp hc2 with rfl
      exact hts t (List.mem_cons_self _ _)

theorem chunkElementsF_token_nonzero
    (chunkText : Str → Option (List Str)) (countTokens : Str → Nat)
    (language : Language) (docId : Nat)
    (elements : List NormalizedElement) (chunks : List TextChunk)
    (hchunks : chunkElementsF chunkText countTokens language docId
      elements = some chunks)
    (htok : ∀ texts, chunkText (combineElementText elements).1 = some texts →
      ∀ t ∈ texts, countTokens t ≠ 0) :
    ∀ c ∈ chunks, c.token_count ≠ 0 := by
  unfold chunkElementsF at hchunks
  by_cases hel : elements = []
  · rw [if_pos hel] at hchunks
    cases hchunks
    intro c hc
    cases hc
  · rw [if_neg hel] at hchunks
    dsimp only at hchunks
    rcases hct : chunkText (combineElementText elements).1 with _ | texts <;>
      rw [hct] at hchunks
    · simp at hchunks
    · simp only [Option.map_some'] at hchunks
      cases hchunks
      exact buildChunks_token_nonzero _ _ _ _ _ texts ([], 0, 0)
        (htok texts hct) (by intro c hc; cases hc)

theorem jaSplitAux_mem :
    ∀ (rest : Str) (acc : List Str) (cur : Str),
      (∀ s ∈ acc, s ≠ [] ∧ lastNonWs s) →
      ∀ s ∈ jaSplitAux acc cur rest, s ≠ [] ∧ lastNonWs s := by
  intro rest
  induction rest with
  | nil =>
    intro acc cur hacc s hs
    unfold jaSplitAux at hs
    by_cases hne : pyStrip cur.reverse ≠ []
    · rw [if_pos hne] at hs
      rcases List.mem_append.mp hs with h | h
      · exact hacc s h
      · rcases List.mem_singleton.mp h with rfl
        exact ⟨hne, lastNonWs_pyStrip_of_ne_nil hne⟩
    · rw [if_neg hne] at hs
      exact hacc s hs
  | cons c cs ih =>
    intro acc cur hacc s hs
    unfold jaSplitAux at hs
    by_cases hend : jaIsSentEnd c = true
    · rw [if_pos hend] at hs
      by_cases hne : pyStrip (c :: cur).reverse ≠ []
      · rw [if_pos hne] at hs
        refine ih _ [] ?_ s hs
        intro u hu
        rcases List.mem_append.mp hu with h | h
        · exact hacc u h
        · rcases List.mem_singleton.mp h with rfl
          exact ⟨hne, lastNonWs_pyStrip_of_ne_nil hne⟩
      · rw [if_neg hne] at hs
        exact ih acc [] hacc s hs
    · rw [if_neg hend] at hs
      exact ih acc (c :: cur) hacc s hs

theorem jaSplitSentences_mem {text s : Str}
    (h : s ∈ jaSplitSentences text) : s ≠ [] ∧ lastNonWs s := by
  unfold jaSplitSentences at h
  by_cases ht : text = []
  · rw [if_pos ht] at h
    cases h
  · rw [if_neg ht] at h
    exact jaSplitAux_mem text [] [] (by intro u hu; cases hu) s h

theorem jaStep_inv (cfg : ChunkerCfg) (fb : Str → Nat → Nat)
    (st : List Str × Str) (s : Str)
    (h1 : ∀ t ∈ st.1, t ≠ []) (h2 : st.2 = [] ∨ lastNonWs st.2)
    (hs : s ≠ [] ∧ lastNonWs s) :
    (∀ t ∈ (jaStep cfg fb st s).1, t ≠ []) ∧
    ((jaStep cfg fb st s).2 = [] ∨ lastNonWs (jaStep cfg fb st s).2) := by
  unfold jaStep
  dsimp only
  by_cases hover : st.2.length + s.length > cfg.chunk_size
  · rw [if_pos hover]
    by_cases hne : st.2 ≠ []
    · rw [if_pos hne]
      have hlast : lastNonWs st.2 := by
        rcases h2 with h | h
        · exact absurd h hne
        · exact h
      dsimp only
      constructor
      · intro t ht
        rcases List.mem_append.mp ht with h | h
        · exact h1 t h
        · rcases List.mem_singleton.mp h with rfl
          exact pyStrip_ne_nil_of_lastNonWs hlast
      · exact Or.inr (lastNonWs_append hs.2)
    · rw [if_neg hne]
      exact ⟨h1, Or.inr (lastNonWs_append hs.2)⟩
  · rw [if_neg hover]
    exact ⟨h1, Or.inr (lastNonWs_append hs.2)⟩

theorem jaSentenceChunks_ne_nil (cfg : ChunkerCfg) (fb : Str → Nat → Nat)
    (sentences : List Str)
    (hsent : ∀ s ∈ sentences, s ≠ [] ∧ lastNonWs s) :
    ∀ t ∈ jaSentenceChunks cfg fb sentences, t ≠ [] := by
  have hfold :
      ∀ (ss : List Str) (st : List Str × Str),
        (∀ s ∈ ss, s ≠ [] ∧ lastNonWs s) →
        (∀ t ∈ st.1, t ≠ []) → (st.2 = [] ∨ lastNonWs st.2) →
        (∀ t ∈ (ss.foldl (jaStep cfg fb) st).1, t ≠ []) ∧
        ((ss.foldl (jaStep cfg fb) st).2 = [] ∨
          lastNonWs (ss.foldl (jaStep cfg fb) st).2) := by
    intro ss
    induction ss with
    | nil => intro st _ h1 h2; exact ⟨h1, h2⟩
    | cons s rest ih =>
      intro st hss h1 h2
      rw [List.foldl_cons]
      have hstep := jaStep_inv cfg fb st s h1 h2
        (hss s (List.mem_cons_self _ _))
      exact ih _ (fun u hu => hss u (List.mem_cons_of_mem _ hu))
        hstep.1 hstep.2
  intro t ht
  unfold jaSentenceChunks at ht
  obtain ⟨hc1, _⟩ := hfold sentences ([], []) hsent
    (by intro t ht2; cases ht2) (Or.inl rfl)
  dsimp only at ht
  rcases List.mem_append.mp ht with h | h
  · exact hc1 t h
  · by_cases hne : pyStrip (sentences.foldl (jaStep cfg fb) ([], [])).2 ≠ []
    · rw [if_pos hne] at h
      rcases List.mem_singleton.mp h with rfl
      exact hne
    · rw [if_neg hne] at h
      cases h

theorem jaMorphemeChunks_ne_nil (cfg : ChunkerCfg) (morphemes : List Str) :
    ∀ t ∈ jaMorphemeChunks cfg morphemes, t ≠ [] := by
  have hfold :
      ∀ (ms : List Str) (st : List Str × Str),
        (∀ t ∈ st.1, t ≠ []) →
        ∀ t ∈ (ms.foldl (jaMorphStep cfg) st).1, t ≠ [] := by
    intro ms
    induction ms with
    | nil => intro st h; exact h
    | cons m rest ih =>
      intro st h1
      rw [List.foldl_cons]
      refine ih _ ?_
      unfold jaMorphStep
      dsimp only
      by_cases hover : st.2.length + m.length > cfg.chunk_size
      · rw [if_pos hover]
        by_cases hne : st.2 ≠ []
        · rw [if_pos hne]
          intro t ht
          rcases List.mem_append.mp ht with h | h
          · exact h1 t h
          · rcases List.mem_singleton.mp h with rfl
            exact hne
        · rw [if_neg hne]
          exact h1
      · rw [if_neg hover]
        exact h1
  intro t ht
  unfold jaMorphemeChunks at ht
  dsimp only at ht
  rcases List.mem_append.mp ht with h | h
  · exact hfold morphemes ([], []) (by intro u hu; cases hu) t h
  · by_cases hne : (morphemes.foldl (jaMorphStep cfg) ([], [])).2 ≠ []
    · rw [if_pos hne] at h
      rcases List.mem_singleton.mp h with rfl
      exact hne
    · rw [if_neg hne] at h
      cases h

theorem jaCharFallbackF_ne_nil (cfg : ChunkerCfg) (text : Str)
    (hsize : 0 < cfg.chunk_size) :
    ∀ (fuel start : Nat) (texts : List Str),
      jaCharFallbackF cfg text fuel start = some texts →
      ∀ t ∈ texts, t ≠ [] := by
  intro fuel
  induction fuel with
  | zero => intro start texts h; cases h
  | succ f ih =>
    intro start texts h
    rw [jaCharFallbackF] at h
    by_cases hlt : start < text.length
    · rw [if_pos hlt] at h
      dsimp only at h
      rcases hrec : jaCharFallbackF cfg text f
          (if min (start + cfg.chunk_size) text.length ≤ cfg.chunk_overlap
           then min (start + cfg.chunk_size) text.length
           else min (start + cfg.chunk_size) text.length - cfg.chunk_overlap)
        with _ | rest <;> rw [hrec] at h
      · cases h
      · simp only [Option.map_some'] at h
        cases h
        intro t ht
        rcases List.mem_cons.mp ht with rfl | ht2
        · have hlen : (pySlice text start
              (min (start + cfg.chunk_size) text.length)).length =
              min (start + cfg.chunk_size) text.length - start := by
            unfold pySlice
            rw [List.length_drop, List.length_take]
            omega
          intro hnil
          rw [hnil] at hlen
          simp only [List.length_nil] at hlen
          omega
        · exact ih _ rest hrec t ht2
    · rw [if_neg hlt] at h
      cases h
      intro t ht
      cases ht

theorem jaChunkTextF_ne_nil (env : MorphEnv) (cfg : ChunkerCfg)
    (fuel : Nat) (text : Str) (texts : List Str)
    (hsize : 0 < cfg.chunk_size)
    (h : jaChunkTextF env cfg fuel text = some texts) :
    ∀ t ∈ texts, t ≠ [] := by
  unfold jaChunkTextF at h
  by_cases ht : text = []
  · rw [if_pos ht] at h
    cases h
    intro t ht2
    cases ht2
  · rw [if_neg ht] at h
    by_cases hsent : jaSplitSentences text = []
    · rw [if_pos hsent] at h
      by_cases hfug : env.fugashi = true
      · rw [if_pos hfug] at h
        cases h
        exact jaMorphemeChunks_ne_nil cfg (env.tagger text)
      · rw [if_neg hfug] at h
        exact jaCharFallbackF_ne_nil cfg text hsize fuel 0 texts h
    · rw [if_neg hsent] at h
      cases h
      exact jaSentenceChunks_ne_nil cfg (jaFindBoundary env) _
        (fun s hs => jaSplitSentences_mem hs)

theorem jaCountTokens_pos (env : MorphEnv)
    (htag : ∀ t : Str, t ≠ [] → env.tagger t ≠ []) {t : Str}
    (h : t ≠ []) : jaCountTokens env t ≠ 0 := by
  unfold jaCountTokens
  rw [if_neg h]
  by_cases hfug : env.fugashi = true
  · rw [if_pos hfug]
    intro hz
    exact htag t h (List.length_eq_zero.mp hz)
  · rw [if_neg hfug]
    intro hz
    exact h (List.length_eq_zero.mp hz)

/-- C6: for every valid configuration (`100 ≤ chunk_size ≤ 10000`,
`0 ≤ chunk_overlap < chunk_size`), `chunk_elements` over a non-empty
element list never emits a chunk with `token_count = 0` — for the
sentence-boundary chunker and for the morphology-aware chunker, with or
without the morphological backend (the backend is assumed to return at
least one morpheme on non-empty text), whenever the chunking loop
finishes. -/
theorem c6_no_zero_token_chunks :
    ∀ (cfg : ChunkerCfg) (env : MorphEnv) (docId : Nat)
      (elements : List NormalizedElement) (fuel : Nat),
      100 ≤ cfg.chunk_size → cfg.chunk_size ≤ 10000 →
      cfg.chunk_overlap < cfg.chunk_size →
      (∀ t : Str, t ≠ [] → env.tagger t ≠ []) →
      elements ≠ [] →
      (∀ chunks,
        chunkElementsF (defaultChunkTextF cfg fuel) defaultCountTokens
          Language.english docId elements = some chunks →
        ∀ c ∈ chunks, c.token_count ≠ 0) ∧
      (∀ chunks,
        chunkElementsF (jaChunkTextF env cfg fuel) (jaCountTokens env)
          Language.japanese docId elements = some chunks →
        ∀ c ∈ chunks, c.token_count ≠ 0) := by
  intro cfg env docId elements fuel hlo hhi hov htag hel
  have hsize : 0 < cfg.chunk_size := by omega
  constructor
  · intro chunks hchunks
    refine chunkElementsF_token_nonzero _ _ _ _ _ _ hchunks ?_
    intro texts hct t htmem
    exact defaultCountTokens_pos
      (defaultChunkTextF_hasNonWs cfg fuel (combineRaw elements).1 texts
        hct t htmem)
  · intro chunks hchunks
    refine chunkElementsF_token_nonzero _ _ _ _ _ _ hchunks ?_
    intro texts hct t htmem
    exact jaCountTokens_pos env htag
      (jaChunkTextF_ne_nil env cfg fuel _ texts hsize hct t htmem)

/-- C6 witness: the theorem applied to a concrete one-element import
with `chunk_size = 100`, `chunk_overlap = 10` and an identity-like
morphological backend; the produced chunk has a non-zero token count. -/
theorem c6_no_zero_token_chunks_witness :
    TextChunk.token_count
      { id := 0, text := "Hello there.".toList, language := .english,
        source_elements := [0], document_id := 0, chunk_index := 0,
        start_char := 0, end_char := 12, token_count := 2 } ≠ 0 :=
  ((c6_no_zero_token_chunks ⟨100, 10⟩ ⟨false, fun t => [t]⟩ 0 [c4elemGood] 0
      (by decide) (by decide) (by decide)
      (fun t _ => List.cons_ne_nil t []) (by decide)).1
    [{ id := 0, text := "Hello there.".toList, language := .english,
       source_elements := [0], document_id := 0, chunk_index := 0,
       start_char := 0, end_char := 12, token_count := 2 }] (by decide))
    _ (List.mem_singleton.mpr rfl)

/-- C2 witness: the amended validation conditions applied to the default
configuration values. -/
theorem c2_validation_exact_witness :
    importConfigValid 1000 100 1 = true :=
  (c2_validation_exact 1000 100 1).mpr (by norm_num)

/-- Chunks for the correlation witnesses: adjacent indices 0 and 1. -/
def c8chA : TextChunk :=
  { id := 1, text := "alpha".toList, language := .english,
    source_elements := [], document_id := 0, chunk_index := 0,
    start_char := 0, end_char := 5, token_count := 1 }

/-- Second adjacent chunk, index 1. -/
def c8chB : TextChunk :=
  { id := 2, text := "beta".toList, language := .english,
    source_elements := [], document_id := 0, chunk_index := 1,
    start_char := 6, end_char := 10, token_count := 1 }

/-- C8 witness: the adjacent-edge shape applied to a concrete two-chunk
graph; the single adjacent edge has weight 1 and distance 1. -/
theorem c8_adjacent_edge_shape_witness :
    (mkAdjacentEdge c8chA c8chB).weight = 1 ∧
    (mkAdjacentEdge c8chA c8chB).mdDistance = some 1 := by
  have hsorted : List.mergeSort [c8chA, c8chB]
      (fun a b => a.chunk_index ≤ b.chunk_index) = [c8chA, c8chB] :=
    List.mergeSort_of_sorted (by decide)
  have heq := (c8_adjacent_edge_shape true 1 [c8chA, c8chB]).2.2
  rw [hsorted] at heq
  refine (c8_adjacent_edge_shape true 1 [c8chA, c8chB]).2.1 _ ?_
  rw [heq]
  decide

/-- Chunks for the semantic witness: identical (empty) word sets at
index distance 2. -/
def c7chA : TextChunk :=
  { id := 1, text := [], language := .english, source_elements := [],
    document_id := 0, chunk_index := 0, start_char := 0, end_char := 0,
    token_count := 0 }

/-- Far chunk, index 2. -/
def c7chB : TextChunk :=
  { id := 2, text := [], language := .english, source_elements := [],
    document_id := 0, chunk_index := 2, start_char := 0, end_char := 0,
    token_count := 0 }

/-- C7 witness: the characterisation applied to a concrete pair at index
distance 2 with similarity 0 and threshold 0 — the semantic edge is in
the built graph. -/
theorem c7_semantic_edge_characterisation_witness :
    mkSemanticEdge c7chA c7chB ∈
      (buildGraph ⟨0, true, true⟩ [c7chA, c7chB]).edges ∧
    (mkSemanticEdge c7chA c7chB).correlation_type =
      CorrelationType.semantic :=
  (c7_semantic_edge_characterisation true 0 [c7chA, c7chB]
      (mkSemanticEdge c7chA c7chB)).mpr
    ⟨0, 1, c7chA, c7chB, by decide, by decide, by decide, by decide,
     by decide, rfl⟩

end DI
